import Mathlib

/-!
Verification of the happy repository's authentication core.

Part 1: the algorithm of the pure-JS SHA-512 / HMAC-SHA512
(`sources/encryption/hmac_sha512.web.ts`) in a carry-NORMALIZED variant
(suffix `N`).  JS `number` values that the source keeps as 32-bit halves
are modelled as `Nat` values `< 2^32`; every JS coercion `>>> 0` is
`% 2^32`, JS shifts take their count mod 32, and all values are taken
unsigned.  This is NOT yet the faithful embedding of the source: the
source reads the message-schedule words back from an `Int32Array`, so
the `add64N` carry comparison `lo < al` of the faithful embedding sees a
SIGNED `al`; that faithful embedding (`sha512N`) follows in Part 4b, and
the two demonstrably differ.  The normalized variant is proved equal to
the FIPS 180-4 reference for every input, which isolates the deviation
of the source to that single signed comparison.
-/

def u32 (x : Nat) : Nat := x % 2 ^ 32

/-- ECMAScript `x >>> n` for `x < 2^32` (shift count reduced mod 32). -/
def jsShr (x n : Nat) : Nat := x >>> (n % 32)

/-- ECMAScript `(x << n) >>> 0` for `x < 2^32` (shift count reduced mod 32). -/
def jsShl (x n : Nat) : Nat := u32 (x <<< (n % 32))

/-- `add64` of hmac_sha512.web.ts with the carry comparison taken on the\nunsigned value of `al` (normalized; the faithful `add64` is in Part 4b). -/
def add64N (ah al bh bl : Nat) : Nat × Nat :=
  let lo := u32 (al + bl)
  let hi := u32 (ah + bh + (if lo < al then 1 else 0))
  (hi, lo)

/-- `rotr64` of hmac_sha512.web.ts on unsigned words. -/
def rotr64N (h l n : Nat) : Nat × Nat :=
  if n < 32 then
    (u32 (jsShr h n ||| jsShl l (32 - n)), u32 (jsShr l n ||| jsShl h (32 - n)))
  else
    (u32 (jsShr l (n - 32) ||| jsShl h (32 - (n - 32))),
     u32 (jsShr h (n - 32) ||| jsShl l (32 - (n - 32))))

/-- `shr64` of hmac_sha512.web.ts on unsigned words. -/
def shr64N (h l n : Nat) : Nat × Nat :=
  if n < 32 then (jsShr h n, u32 (jsShr l n ||| jsShl h (32 - n)))
  else (0, jsShr h (n - 32))

/-- The flat table `K` of hmac_sha512.web.ts: 80 round constants as
32-bit (hi, lo) halves, 160 entries. -/
def K : List Nat := [
  0x428a2f98, 0xd728ae22, 0x71374491, 0x23ef65cd, 0xb5c0fbcf, 0xec4d3b2f, 0xe9b5dba5, 0x8189dbbc,
  0x3956c25b, 0xf348b538, 0x59f111f1, 0xb605d019, 0x923f82a4, 0xaf194f9b, 0xab1c5ed5, 0xda6d8118,
  0xd807aa98, 0xa3030242, 0x12835b01, 0x45706fbe, 0x243185be, 0x4ee4b28c, 0x550c7dc3, 0xd5ffb4e2,
  0x72be5d74, 0xf27b896f, 0x80deb1fe, 0x3b1696b1, 0x9bdc06a7, 0x25c71235, 0xc19bf174, 0xcf692694,
  0xe49b69c1, 0x9ef14ad2, 0xefbe4786, 0x384f25e3, 0x0fc19dc6, 0x8b8cd5b5, 0x240ca1cc, 0x77ac9c65,
  0x2de92c6f, 0x592b0275, 0x4a7484aa, 0x6ea6e483, 0x5cb0a9dc, 0xbd41fbd4, 0x76f988da, 0x831153b5,
  0x983e5152, 0xee66dfab, 0xa831c66d, 0x2db43210, 0xb00327c8, 0x98fb213f, 0xbf597fc7, 0xbeef0ee4,
  0xc6e00bf3, 0x3da88fc2, 0xd5a79147, 0x930aa725, 0x06ca6351, 0xe003826f, 0x14292967, 0x0a0e6e70,
  0x27b70a85, 0x46d22ffc, 0x2e1b2138, 0x5c26c926, 0x4d2c6dfc, 0x5ac42aed, 0x53380d13, 0x9d95b3df,
  0x650a7354, 0x8baf63de, 0x766a0abb, 0x3c77b2a8, 0x81c2c92e, 0x47edaee6, 0x92722c85, 0x1482353b,
  0xa2bfe8a1, 0x4cf10364, 0xa81a664b, 0xbc423001, 0xc24b8b70, 0xd0f89791, 0xc76c51a3, 0x0654be30,
  0xd192e819, 0xd6ef5218, 0xd6990624, 0x5565a910, 0xf40e3585, 0x5771202a, 0x106aa070, 0x32bbd1b8,
  0x19a4c116, 0xb8d2d0c8, 0x1e376c08, 0x5141ab53, 0x2748774c, 0xdf8eeb99, 0x34b0bcb5, 0xe19b48a8,
  0x391c0cb3, 0xc5c95a63, 0x4ed8aa4a, 0xe3418acb, 0x5b9cca4f, 0x7763e373, 0x682e6ff3, 0xd6b2b8a3,
  0x748f82ee, 0x5defb2fc, 0x78a5636f, 0x43172f60, 0x84c87814, 0xa1f0ab72, 0x8cc70208, 0x1a6439ec,
  0x90befffa, 0x23631e28, 0xa4506ceb, 0xde82bde9, 0xbef9a3f7, 0xb2c67915, 0xc67178f2, 0xe372532b,
  0xca273ece, 0xea26619c, 0xd186b8c7, 0x21c0c207, 0xeada7dd6, 0xcde0eb1e, 0xf57d4f7f, 0xee6ed178,
  0x06f067aa, 0x72176fba, 0x0a637dc5, 0xa2c898a6, 0x113f9804, 0xbef90dae, 0x1b710b35, 0x131c471b,
  0x28db77f5, 0x23047d84, 0x32caab7b, 0x40c72493, 0x3c9ebe0a, 0x15c9bebc, 0x431d67c4, 0x9c100d4c,
  0x4cc5d4be, 0xcb3e42b6, 0x597f299c, 0xfc657e2a, 0x5fcb6fab, 0x3ad6faec, 0x6c44198c, 0x4a475817]

/-- Big-endian byte serialization of `n` on `k` bytes. -/
def beBytes : Nat → Nat → List Nat
  | 0, _ => []
  | k + 1, n => beBytes k (n / 256) ++ [n % 256]

/-- SHA-512 padding exactly as laid out by hmac_sha512.web.ts:
message, `0x80`, zeros, then the two big-endian 32-bit words
`(bitLen / 2^32) >>> 0` and `bitLen >>> 0` in the final 8 bytes. -/
def jsPad (msg : List Nat) : List Nat :=
  let bitLen := msg.length * 8
  let pad0 := (128 - ((msg.length + 17) % 128)) % 128
  msg ++ [0x80] ++ List.replicate (pad0 + 8) 0
      ++ beBytes 4 (u32 (bitLen / 2 ^ 32)) ++ beBytes 4 (u32 bitLen)

/-- The per-word pair reads `view.getInt32(off) / view.getInt32(off+4)`:
8 big-endian bytes become one (hi, lo) pair of 32-bit words. -/
def toPairs : List Nat → List (Nat × Nat)
  | b0 :: b1 :: b2 :: b3 :: b4 :: b5 :: b6 :: b7 :: rest =>
      (((b0 * 256 + b1) * 256 + b2) * 256 + b3,
       ((b4 * 256 + b5) * 256 + b6) * 256 + b7) :: toPairs rest
  | _ => []

/-- Split a word list into the 16-word message blocks of the outer loop. -/
def chunk16 {α : Type} : List α → List (List α)
  | a0 :: a1 :: a2 :: a3 :: a4 :: a5 :: a6 :: a7 ::
    a8 :: a9 :: a10 :: a11 :: a12 :: a13 :: a14 :: a15 :: rest =>
      [a0, a1, a2, a3, a4, a5, a6, a7, a8, a9, a10, a11, a12, a13, a14, a15]
        :: chunk16 rest
  | _ => []

/-- Pair up a flat list of 32-bit halves ((hi, lo) per 64-bit constant). -/
def pairUp : List Nat → List (Nat × Nat)
  | a :: b :: rest => (a, b) :: pairUp rest
  | _ => []

/-- One message-schedule extension step (`for i = 16; i < 80` body of the
source); `acc` holds the already-computed schedule words most recent
first, so `w[i-2] = acc[1]`, `w[i-7] = acc[6]`, `w[i-15] = acc[14]`,
`w[i-16] = acc[15]`. -/
def jsExtendStepN (acc : List (Nat × Nat)) : Nat × Nat :=
  let w15 := acc.getD 14 (0, 0)
  let a1 := rotr64N w15.1 w15.2 1
  let a2 := rotr64N w15.1 w15.2 8
  let a3 := shr64N w15.1 w15.2 7
  let s0h := u32 (a1.1 ^^^ a2.1 ^^^ a3.1)
  let s0l := u32 (a1.2 ^^^ a2.2 ^^^ a3.2)
  let w2 := acc.getD 1 (0, 0)
  let b1 := rotr64N w2.1 w2.2 19
  let b2 := rotr64N w2.1 w2.2 61
  let b3 := shr64N w2.1 w2.2 6
  let s1h := u32 (b1.1 ^^^ b2.1 ^^^ b3.1)
  let s1l := u32 (b1.2 ^^^ b2.2 ^^^ b3.2)
  let w16 := acc.getD 15 (0, 0)
  let w7 := acc.getD 6 (0, 0)
  let r1 := add64N w16.1 w16.2 s0h s0l
  let r2 := add64N r1.1 r1.2 w7.1 w7.2
  add64N r2.1 r2.2 s1h s1l

def jsExtendN : Nat → List (Nat × Nat) → List (Nat × Nat)
  | 0, acc => acc
  | n + 1, acc => jsExtendN n (jsExtendStepN acc :: acc)

/-- The 80-entry message schedule `w` of one block. -/
def jsScheduleN (block : List (Nat × Nat)) : List (Nat × Nat) :=
  (jsExtendN 64 block.reverse).reverse

/-- The eight 64-bit working variables as 32-bit halves. -/
structure JsSt where
  ah : Nat
  al : Nat
  bh : Nat
  bl : Nat
  ch : Nat
  cl : Nat
  dh : Nat
  dl : Nat
  eh : Nat
  el : Nat
  fh : Nat
  fl : Nat
  gh : Nat
  gl : Nat
  hh : Nat
  hl : Nat
  deriving Repr, DecidableEq

/-- One round of the `for i = 0; i < 80` compression loop. -/
def jsRoundN (s : JsSt) (kw : (Nat × Nat) × (Nat × Nat)) : JsSt :=
  let e14 := rotr64N s.eh s.el 14
  let e18 := rotr64N s.eh s.el 18
  let e41 := rotr64N s.eh s.el 41
  let S1h := u32 (e14.1 ^^^ e18.1 ^^^ e41.1)
  let S1l := u32 (e14.2 ^^^ e18.2 ^^^ e41.2)
  let chh := u32 ((s.eh &&& s.fh) ^^^ ((s.eh ^^^ 0xffffffff) &&& s.gh))
  let chl := u32 ((s.el &&& s.fl) ^^^ ((s.el ^^^ 0xffffffff) &&& s.gl))
  let t1a := add64N s.hh s.hl S1h S1l
  let t1b := add64N t1a.1 t1a.2 chh chl
  let t1c := add64N t1b.1 t1b.2 kw.1.1 kw.1.2
  let t1 := add64N t1c.1 t1c.2 kw.2.1 kw.2.2
  let a28 := rotr64N s.ah s.al 28
  let a34 := rotr64N s.ah s.al 34
  let a39 := rotr64N s.ah s.al 39
  let S0h := u32 (a28.1 ^^^ a34.1 ^^^ a39.1)
  let S0l := u32 (a28.2 ^^^ a34.2 ^^^ a39.2)
  let majh := u32 ((s.ah &&& s.bh) ^^^ (s.ah &&& s.ch) ^^^ (s.bh &&& s.ch))
  let majl := u32 ((s.al &&& s.bl) ^^^ (s.al &&& s.cl) ^^^ (s.bl &&& s.cl))
  let t2 := add64N S0h S0l majh majl
  let e' := add64N s.dh s.dl t1.1 t1.2
  let a' := add64N t1.1 t1.2 t2.1 t2.2
  ⟨a'.1, a'.2, s.ah, s.al, s.bh, s.bl, s.ch, s.cl,
   e'.1, e'.2, s.eh, s.el, s.fh, s.fl, s.gh, s.gl⟩

/-- Process one 16-word block: run the 80 rounds from the current hash
state and add the result back into the hash state. -/
def jsBlockStepN (hs : JsSt) (block : List (Nat × Nat)) : JsSt :=
  let t := List.foldl jsRoundN hs ((pairUp K).zip (jsScheduleN block))
  let x0 := add64N hs.ah hs.al t.ah t.al
  let x1 := add64N hs.bh hs.bl t.bh t.bl
  let x2 := add64N hs.ch hs.cl t.ch t.cl
  let x3 := add64N hs.dh hs.dl t.dh t.dl
  let x4 := add64N hs.eh hs.el t.eh t.el
  let x5 := add64N hs.fh hs.fl t.fh t.fl
  let x6 := add64N hs.gh hs.gl t.gh t.gl
  let x7 := add64N hs.hh hs.hl t.hh t.hl
  ⟨x0.1, x0.2, x1.1, x1.2, x2.1, x2.2, x3.1, x3.2,
   x4.1, x4.2, x5.1, x5.2, x6.1, x6.2, x7.1, x7.2⟩

/-- The initial hash values h0..h7 of the source, as 32-bit halves. -/
def jsInitN : JsSt :=
  ⟨0x6a09e667, 0xf3bcc908, 0xbb67ae85, 0x84caa73b,
   0x3c6ef372, 0xfe94f82b, 0xa54ff53a, 0x5f1d36f1,
   0x510e527f, 0xade682d1, 0x9b05688c, 0x2b3e6c1f,
   0x1f83d9ab, 0xfb41bd6b, 0x5be0cd19, 0x137e2179⟩

/-- The sha512 algorithm of hmac_sha512.web.ts, carry-normalized. -/
def sha512N (data : List Nat) : List Nat :=
  let fin := List.foldl jsBlockStepN jsInitN (chunk16 (toPairs (jsPad data)))
  beBytes 4 fin.ah ++ beBytes 4 fin.al ++ beBytes 4 fin.bh ++ beBytes 4 fin.bl ++
  beBytes 4 fin.ch ++ beBytes 4 fin.cl ++ beBytes 4 fin.dh ++ beBytes 4 fin.dl ++
  beBytes 4 fin.eh ++ beBytes 4 fin.el ++ beBytes 4 fin.fh ++ beBytes 4 fin.fl ++
  beBytes 4 fin.gh ++ beBytes 4 fin.gl ++ beBytes 4 fin.hh ++ beBytes 4 fin.hl

/-- The hmac_sha512 of hmac_sha512.web.ts over the carry-normalized hash. -/
def hmac_sha512N (key data : List Nat) : List Nat :=
  let actualKey := if 128 < key.length then sha512N key else key
  let paddedKey := actualKey ++ List.replicate (128 - actualKey.length) 0
  let innerKey := paddedKey.map (fun b => b ^^^ 0x36)
  let outerKey := paddedKey.map (fun b => b ^^^ 0x5c)
  sha512N (outerKey ++ sha512N (innerKey ++ data))

/-!
Part 2: reference SHA-512 / HMAC-SHA512, modelled from the spec (§4.1):
a Merkle–Damgård compression over 1024-bit blocks with eight 64-bit
working variables, 80 rounds driven by the fixed table of 80 64-bit
round constants, message schedule extended from 16 to 80 words, padding
`0x80`, zeros, 128-bit big-endian bit length, and the standard HMAC
construction with `ipad = 0x36`, `opad = 0x5c`.  64-bit words are `Nat`
values `< 2^64`; wrap-around is explicit `% 2^64`.
-/

def u64 (x : Nat) : Nat := x % 2 ^ 64

/-- 64-bit rotate right (FIPS 180-4 `ROTR`). -/
def rotr (x n : Nat) : Nat := u64 ((x >>> n) ||| (x <<< (64 - n)))

/-- FIPS 180-4 `Σ0`. -/
def bsig0 (x : Nat) : Nat := rotr x 28 ^^^ rotr x 34 ^^^ rotr x 39

/-- FIPS 180-4 `Σ1`. -/
def bsig1 (x : Nat) : Nat := rotr x 14 ^^^ rotr x 18 ^^^ rotr x 41

/-- FIPS 180-4 `σ0`. -/
def ssig0 (x : Nat) : Nat := rotr x 1 ^^^ rotr x 8 ^^^ (x >>> 7)

/-- FIPS 180-4 `σ1`. -/
def ssig1 (x : Nat) : Nat := rotr x 19 ^^^ rotr x 61 ^^^ (x >>> 6)

/-- FIPS 180-4 `Ch` (¬x is xor with all-ones on 64 bits). -/
def chF (x y z : Nat) : Nat := (x &&& y) ^^^ ((x ^^^ (2 ^ 64 - 1)) &&& z)

/-- FIPS 180-4 `Maj`. -/
def majF (x y z : Nat) : Nat := (x &&& y) ^^^ (x &&& z) ^^^ (y &&& z)

/-- The 80 64-bit round constants of FIPS 180-4, each the recombination
hi * 2^64 half of the table `K` above (which lists exactly these
constants split into halves); `C1_sha512_hmac_match_standard` pins them
against the published digests of the empty input, "abc" and the RFC 4231
HMAC vector. -/
def refK : List Nat := (pairUp K).map (fun p => p.1 * 2 ^ 32 + p.2)

/-- Standard SHA-512 padding: `0x80`, the least number of zeros making
the total a block multiple, then the 128-bit big-endian bit length. -/
def refPad (msg : List Nat) : List Nat :=
  let z := (128 - ((msg.length + 17) % 128)) % 128
  msg ++ [0x80] ++ List.replicate z 0 ++ beBytes 16 (msg.length * 8)

/-- 8 big-endian bytes to one 64-bit word. -/
def toWords : List Nat → List Nat
  | b0 :: b1 :: b2 :: b3 :: b4 :: b5 :: b6 :: b7 :: rest =>
      ((((((((b0 * 256 + b1) * 256 + b2) * 256 + b3) * 256 + b4) * 256 + b5)
         * 256 + b6) * 256 + b7) : Nat) :: toWords rest
  | _ => []

/-- Message-schedule extension step (`w[i] = w[i-16] + σ0(w[i-15]) +
w[i-7] + σ1(w[i-2])`), with `acc` most recent first as in `jsExtendStepN`. -/
def refExtendStep (acc : List Nat) : Nat :=
  let s0 := ssig0 (acc.getD 14 0)
  let s1 := ssig1 (acc.getD 1 0)
  u64 (u64 (u64 (acc.getD 15 0 + s0) + acc.getD 6 0) + s1)

def refExtend : Nat → List Nat → List Nat
  | 0, acc => acc
  | n + 1, acc => refExtend n (refExtendStep acc :: acc)

def refSchedule (block : List Nat) : List Nat :=
  (refExtend 64 block.reverse).reverse

/-- The eight 64-bit working variables a..h. -/
structure RefSt where
  a : Nat
  b : Nat
  c : Nat
  d : Nat
  e : Nat
  f : Nat
  g : Nat
  h : Nat
  deriving Repr, DecidableEq

/-- One FIPS 180-4 compression round. -/
def refRound (s : RefSt) (kw : Nat × Nat) : RefSt :=
  let S1 := bsig1 s.e
  let chV := chF s.e s.f s.g
  let t1 := u64 (u64 (u64 (u64 (s.h + S1) + chV) + kw.1) + kw.2)
  let S0 := bsig0 s.a
  let majV := majF s.a s.b s.c
  let t2 := u64 (S0 + majV)
  ⟨u64 (t1 + t2), s.a, s.b, s.c, u64 (s.d + t1), s.e, s.f, s.g⟩

/-- Process one block and add the result into the hash state. -/
def refBlockStep (hs : RefSt) (block : List Nat) : RefSt :=
  let t := List.foldl refRound hs (refK.zip (refSchedule block))
  ⟨u64 (hs.a + t.a), u64 (hs.b + t.b), u64 (hs.c + t.c), u64 (hs.d + t.d),
   u64 (hs.e + t.e), u64 (hs.f + t.f), u64 (hs.g + t.g), u64 (hs.h + t.h)⟩

/-- The initial hash values H0..H7 of FIPS 180-4. -/
def refInit : RefSt :=
  ⟨7640891576956012808, 13503953896175478587, 4354685564936845355, 11912009170470909681,
   5840696475078001361, 11170449401992604703, 2270897969802886507, 6620516959819538809⟩

/-- Reference SHA-512 on byte lists, from the spec's algorithm. -/
def sha512Spec (data : List Nat) : List Nat :=
  let fin := List.foldl refBlockStep refInit (chunk16 (toWords (refPad data)))
  beBytes 8 fin.a ++ beBytes 8 fin.b ++ beBytes 8 fin.c ++ beBytes 8 fin.d ++
  beBytes 8 fin.e ++ beBytes 8 fin.f ++ beBytes 8 fin.g ++ beBytes 8 fin.h

/-- Reference HMAC-SHA512: `hash((key ^ opad) ‖ hash((key ^ ipad) ‖ msg))`
with a 128-byte block size and pre-hashing of over-long keys. -/
def hmacSpec (key data : List Nat) : List Nat :=
  let actualKey := if 128 < key.length then sha512Spec key else key
  let paddedKey := actualKey ++ List.replicate (128 - actualKey.length) 0
  sha512Spec (paddedKey.map (fun b => b ^^^ 0x5c) ++
    sha512Spec (paddedKey.map (fun b => b ^^^ 0x36) ++ data))

/-!
Part 3: correspondence between the 32-bit half-word operations of the JS
implementation and the 64-bit word operations of the reference.  A
64-bit word `x < 2^64` is represented on the JS side by the pair
`(x >>> 32, x % 2^32)`.
-/

theorem testBit_ge {n x i : Nat} (h : x < 2 ^ n) (hni : n ≤ i) : x.testBit i = false :=
  Nat.testBit_lt_two_pow (lt_of_lt_of_le h (Nat.pow_le_pow_right (by norm_num) hni))

theorem u32_lt (x : Nat) : u32 x < 2 ^ 32 := Nat.mod_lt _ (by norm_num)

theorem u64_lt (x : Nat) : u64 x < 2 ^ 64 := Nat.mod_lt _ (by norm_num)

theorem rotr_lt (x n : Nat) : rotr x n < 2 ^ 64 := u64_lt _

theorem u32_hi {x : Nat} (hx : x < 2 ^ 64) : u32 (x >>> 32) = x >>> 32 := by
  apply Nat.mod_eq_of_lt
  rw [Nat.shiftRight_eq_div_pow]
  omega

theorem u32_lo (x : Nat) : u32 (x % 2 ^ 32) = x % 2 ^ 32 := by
  unfold u32
  omega

theorem xor_hi (x y : Nat) : x >>> 32 ^^^ y >>> 32 = (x ^^^ y) >>> 32 := by
  apply Nat.eq_of_testBit_eq
  intro i
  simp [Nat.testBit_xor, Nat.testBit_shiftRight]

theorem xor_lo (x y : Nat) : x % 2 ^ 32 ^^^ y % 2 ^ 32 = (x ^^^ y) % 2 ^ 32 := by
  apply Nat.eq_of_testBit_eq
  intro i
  simp only [Nat.testBit_xor, Nat.testBit_mod_two_pow]
  by_cases h : i < 32 <;> simp [h]

theorem land_hi (x y : Nat) : x >>> 32 &&& y >>> 32 = (x &&& y) >>> 32 := by
  apply Nat.eq_of_testBit_eq
  intro i
  simp [Nat.testBit_land, Nat.testBit_shiftRight]

theorem land_lo (x y : Nat) : x % 2 ^ 32 &&& y % 2 ^ 32 = (x &&& y) % 2 ^ 32 := by
  apply Nat.eq_of_testBit_eq
  intro i
  simp only [Nat.testBit_land, Nat.testBit_mod_two_pow]
  by_cases h : i < 32 <;> simp [h]

theorem not_hi (x : Nat) : x >>> 32 ^^^ 4294967295 = (x ^^^ (2 ^ 64 - 1)) >>> 32 := by
  have h32 : (4294967295 : Nat) = 2 ^ 32 - 1 := by norm_num
  apply Nat.eq_of_testBit_eq
  intro i
  rw [h32]
  simp only [Nat.testBit_xor, Nat.testBit_shiftRight, Nat.testBit_two_pow_sub_one]
  by_cases h : i < 32
  · have h64 : 32 + i < 64 := by omega
    simp [h, h64]
  · have h64 : ¬(32 + i < 64) := by omega
    simp [h, h64]

theorem not_lo (x : Nat) : x % 2 ^ 32 ^^^ 4294967295 = (x ^^^ (2 ^ 64 - 1)) % 2 ^ 32 := by
  have h32 : (4294967295 : Nat) = 2 ^ 32 - 1 := by norm_num
  apply Nat.eq_of_testBit_eq
  intro i
  rw [h32]
  simp only [Nat.testBit_xor, Nat.testBit_mod_two_pow, Nat.testBit_two_pow_sub_one]
  by_cases h : i < 32
  · have h64 : i < 64 := by omega
    simp [h, h64]
  · simp [h]

theorem add64_pr (x y : Nat) :
    add64N (x >>> 32) (x % 2 ^ 32) (y >>> 32) (y % 2 ^ 32)
      = (u64 (x + y) >>> 32, u64 (x + y) % 2 ^ 32) := by
  simp only [add64N, u32, u64, Nat.shiftRight_eq_div_pow, Prod.mk.injEq]
  constructor
  · split <;> omega
  · omega

theorem shr64_pr {x : Nat} (n : Nat) (h1 : 0 < n) (h2 : n < 32) :
    shr64N (x >>> 32) (x % 2 ^ 32) n = ((x >>> n) >>> 32, (x >>> n) % 2 ^ 32) := by
  have hn : n % 32 = n := Nat.mod_eq_of_lt (by omega)
  have hn' : (32 - n) % 32 = 32 - n := Nat.mod_eq_of_lt (by omega)
  simp only [shr64N, if_pos h2, jsShr, jsShl, u32, hn, hn', Prod.mk.injEq]
  constructor
  · apply Nat.eq_of_testBit_eq
    intro i
    simp only [Nat.testBit_shiftRight]
    congr 1
    omega
  · apply Nat.eq_of_testBit_eq
    intro i
    simp only [Nat.testBit_lor, Nat.testBit_mod_two_pow, Nat.testBit_shiftLeft,
      Nat.testBit_shiftRight, ge_iff_le]
    by_cases hi : i < 32
    · by_cases hni : 32 - n ≤ i
      · have e1 : 32 + (i - (32 - n)) = n + i := by omega
        have e2 : ¬(n + i < 32) := by omega
        simp [hi, hni, e1, e2]
      · have e2 : n + i < 32 := by omega
        simp [hi, hni, e2]
    · simp [hi]

theorem rotr64_pr_lo {x : Nat} (n : Nat) (h1 : 0 < n) (h2 : n < 32) :
    rotr64N (x >>> 32) (x % 2 ^ 32) n = (rotr x n >>> 32, rotr x n % 2 ^ 32) := by
  have hn : n % 32 = n := Nat.mod_eq_of_lt (by omega)
  have hn' : (32 - n) % 32 = 32 - n := Nat.mod_eq_of_lt (by omega)
  simp only [rotr64N, if_pos h2, jsShr, jsShl, u32, rotr, u64, hn, hn', Prod.mk.injEq]
  constructor
  · apply Nat.eq_of_testBit_eq
    intro i
    simp only [Nat.testBit_lor, Nat.testBit_mod_two_pow, Nat.testBit_shiftLeft,
      Nat.testBit_shiftRight, ge_iff_le]
    by_cases hi : i < 32
    · have e2 : 32 + (n + i) = n + (32 + i) := by omega
      have e4 : 32 + i < 64 := by omega
      by_cases hni : 32 - n ≤ i
      · have e1 : i - (32 - n) = 32 + i - (64 - n) := by omega
        have e3 : 64 - n ≤ 32 + i := by omega
        have e7 : 32 + i - (64 - n) < 32 := by omega
        simp [hi, hni, e1, e2, e3, e4, e7]
      · have e3 : ¬(64 - n ≤ 32 + i) := by omega
        simp [hi, hni, e2, e3, e4]
    · have e4 : ¬(32 + i < 64) := by omega
      simp [hi, e4]
  · apply Nat.eq_of_testBit_eq
    intro i
    simp only [Nat.testBit_lor, Nat.testBit_mod_two_pow, Nat.testBit_shiftLeft,
      Nat.testBit_shiftRight, ge_iff_le]
    by_cases hi : i < 32
    · have e9 : i < 64 := by omega
      have e3 : ¬(64 - n ≤ i) := by omega
      by_cases hni : 32 - n ≤ i
      · have e1 : 32 + (i - (32 - n)) = n + i := by omega
        have e2 : ¬(n + i < 32) := by omega
        simp [hi, hni, e1, e2, e3, e9]
      · have e2 : n + i < 32 := by omega
        simp [hi, hni, e2, e3, e9]
    · simp [hi]

theorem rotr64_pr_hi {x : Nat} (n : Nat) (hx : x < 2 ^ 64) (h1 : 32 < n) (h2 : n < 64) :
    rotr64N (x >>> 32) (x % 2 ^ 32) n = (rotr x n >>> 32, rotr x n % 2 ^ 32) := by
  have hb : ¬(n < 32) := by omega
  have hn : (n - 32) % 32 = n - 32 := Nat.mod_eq_of_lt (by omega)
  have hn' : (32 - (n - 32)) % 32 = 32 - (n - 32) := Nat.mod_eq_of_lt (by omega)
  simp only [rotr64N, if_neg hb, jsShr, jsShl, u32, rotr, u64, hn, hn', Prod.mk.injEq]
  constructor
  · apply Nat.eq_of_testBit_eq
    intro i
    simp only [Nat.testBit_lor, Nat.testBit_mod_two_pow, Nat.testBit_shiftLeft,
      Nat.testBit_shiftRight, ge_iff_le]
    by_cases hi : i < 32
    · have e4 : 32 + i < 64 := by omega
      have e5 : x.testBit (n + (32 + i)) = false := testBit_ge hx (by omega)
      have e3 : 64 - n ≤ 32 + i := by omega
      by_cases hni : 32 - (n - 32) ≤ i
      · have e1 : 32 + (i - (32 - (n - 32))) = 32 + i - (64 - n) := by omega
        have e2 : ¬(n - 32 + i < 32) := by omega
        simp [hi, hni, e1, e2, e3, e4, e5]
      · have e2 : n - 32 + i < 32 := by omega
        have e6 : n - 32 + i = 32 + i - (64 - n) := by omega
        have e7 : 32 + i - (64 - n) < 32 := by omega
        simp [hi, hni, e2, e3, e4, e5, e6, e7]
    · have e4 : ¬(32 + i < 64) := by omega
      simp [hi, e4]
  · apply Nat.eq_of_testBit_eq
    intro i
    simp only [Nat.testBit_lor, Nat.testBit_mod_two_pow, Nat.testBit_shiftLeft,
      Nat.testBit_shiftRight, ge_iff_le]
    by_cases hi : i < 32
    · have e9 : i < 64 := by omega
      have e8 : 32 + (n - 32 + i) = n + i := by omega
      by_cases hni : 32 - (n - 32) ≤ i
      · have e5 : 64 - n ≤ i := by omega
        have e1 : i - (32 - (n - 32)) = i - (64 - n) := by omega
        have e7 : i - (64 - n) < 32 := by omega
        simp [hi, hni, e1, e5, e7, e8, e9]
      · have e5 : ¬(64 - n ≤ i) := by omega
        simp [hi, hni, e5, e8, e9]
    · simp [hi]

/-- The (hi, lo) half-word pair representing a 64-bit word. -/
def pr (x : Nat) : Nat × Nat := (x >>> 32, x % 2 ^ 32)

theorem pr_zero : pr 0 = (0, 0) := by simp [pr]

theorem xor64_lt {x y : Nat} (hx : x < 2 ^ 64) (hy : y < 2 ^ 64) : x ^^^ y < 2 ^ 64 :=
  Nat.xor_lt_two_pow hx hy

theorem shr64_lt {x : Nat} (n : Nat) (hx : x < 2 ^ 64) : x >>> n < 2 ^ 64 := by
  rw [Nat.shiftRight_eq_div_pow]
  exact lt_of_le_of_lt (Nat.div_le_self _ _) hx

theorem getD_map_pr (acc : List Nat) (i : Nat) :
    (List.map pr acc).getD i (0, 0) = pr (acc.getD i 0) := by
  induction acc generalizing i with
  | nil => simp [List.getD, pr_zero]
  | cons a t ih =>
      cases i with
      | zero => simp [List.getD]
      | succ j => simpa [List.getD] using ih j

theorem getD_lt {acc : List Nat} (hb : ∀ w ∈ acc, w < 2 ^ 64) (i : Nat) :
    acc.getD i 0 < 2 ^ 64 := by
  induction acc generalizing i with
  | nil => simp [List.getD]
  | cons a t ih =>
      cases i with
      | zero => exact hb a (by simp)
      | succ j =>
          simp only [List.getD_cons_succ]
          exact ih (fun w hw => hb w (by simp [hw])) j

theorem jsExtendStep_pr (acc : List Nat) (hb : ∀ w ∈ acc, w < 2 ^ 64) :
    jsExtendStepN (List.map pr acc) = pr (refExtendStep acc) := by
  have b14 := getD_lt hb 14
  have b1 := getD_lt hb 1
  have b15 := getD_lt hb 15
  have b6 := getD_lt hb 6
  have hs0 : rotr (acc.getD 14 0) 1 ^^^ rotr (acc.getD 14 0) 8 ^^^ acc.getD 14 0 >>> 7
      < 2 ^ 64 := xor64_lt (xor64_lt (rotr_lt ..) (rotr_lt ..)) (shr64_lt _ b14)
  have hs1 : rotr (acc.getD 1 0) 19 ^^^ rotr (acc.getD 1 0) 61 ^^^ acc.getD 1 0 >>> 6
      < 2 ^ 64 := xor64_lt (xor64_lt (rotr_lt ..) (rotr_lt ..)) (shr64_lt _ b1)
  simp only [jsExtendStepN, refExtendStep, ssig0, ssig1, getD_map_pr, pr]
  rw [rotr64_pr_lo 1 (by norm_num) (by norm_num),
      rotr64_pr_lo 8 (by norm_num) (by norm_num),
      shr64_pr 7 (by norm_num) (by norm_num),
      rotr64_pr_lo 19 (by norm_num) (by norm_num),
      rotr64_pr_hi 61 b1 (by norm_num) (by norm_num),
      shr64_pr 6 (by norm_num) (by norm_num)]
  dsimp only
  rw [xor_hi, xor_hi, xor_hi, xor_hi, xor_lo, xor_lo, xor_lo, xor_lo,
      u32_hi hs0, u32_hi hs1, u32_lo, u32_lo]
  rw [add64_pr]
  dsimp only
  rw [add64_pr]
  dsimp only
  rw [add64_pr]

theorem jsExtend_pr (n : Nat) (acc : List Nat) (hb : ∀ w ∈ acc, w < 2 ^ 64) :
    jsExtendN n (List.map pr acc) = List.map pr (refExtend n acc) := by
  induction n generalizing acc with
  | zero => simp [jsExtendN, refExtend]
  | succ m ih =>
      simp only [jsExtendN, refExtend, jsExtendStep_pr acc hb]
      have : pr (refExtendStep acc) :: List.map pr acc
          = List.map pr (refExtendStep acc :: acc) := by simp
      rw [this]
      apply ih
      intro w hw
      rcases List.mem_cons.mp hw with h | h
      · subst h
        exact u64_lt _
      · exact hb w h

theorem refExtend_bound (n : Nat) (acc : List Nat) (hb : ∀ w ∈ acc, w < 2 ^ 64) :
    ∀ w ∈ refExtend n acc, w < 2 ^ 64 := by
  induction n generalizing acc with
  | zero => simpa [refExtend] using hb
  | succ m ih =>
      simp only [refExtend]
      apply ih
      intro w hw
      rcases List.mem_cons.mp hw with h | h
      · subst h
        exact u64_lt _
      · exact hb w h

theorem jsSchedule_pr (bw : List Nat) (hb : ∀ w ∈ bw, w < 2 ^ 64) :
    jsScheduleN (List.map pr bw) = List.map pr (refSchedule bw) := by
  simp only [jsScheduleN, refSchedule]
  have h1 : (List.map pr bw).reverse = List.map pr bw.reverse := by simp
  rw [h1, jsExtend_pr 64 bw.reverse (fun w hw => hb w (List.mem_reverse.mp hw))]
  simp

theorem refSchedule_bound (bw : List Nat) (hb : ∀ w ∈ bw, w < 2 ^ 64) :
    ∀ w ∈ refSchedule bw, w < 2 ^ 64 := by
  intro w hw
  simp only [refSchedule, List.mem_reverse] at hw
  exact refExtend_bound 64 bw.reverse (fun v hv => hb v (List.mem_reverse.mp hv)) w hw

theorem toPairs_toWords : ∀ (l : List Nat), (∀ b ∈ l, b < 256) →
    toPairs l = List.map pr (toWords l)
  | [], _ => rfl
  | [_], _ => rfl
  | [_, _], _ => rfl
  | [_, _, _], _ => rfl
  | [_, _, _, _], _ => rfl
  | [_, _, _, _, _], _ => rfl
  | [_, _, _, _, _, _], _ => rfl
  | [_, _, _, _, _, _, _], _ => rfl
  | b0 :: b1 :: b2 :: b3 :: b4 :: b5 :: b6 :: b7 :: rest, h => by
      have hr := toPairs_toWords rest (fun b hb => h b (by simp [hb]))
      have h0 := h b0 (by simp)
      have h1 := h b1 (by simp)
      have h2 := h b2 (by simp)
      have h3 := h b3 (by simp)
      have h4 := h b4 (by simp)
      have h5 := h b5 (by simp)
      have h6 := h b6 (by simp)
      have h7 := h b7 (by simp)
      simp only [toPairs, toWords, List.map, hr, List.cons.injEq, and_true]
      simp only [pr, Prod.mk.injEq, Nat.shiftRight_eq_div_pow]
      constructor <;> omega

theorem toWords_lt : ∀ (l : List Nat), (∀ b ∈ l, b < 256) →
    ∀ w ∈ toWords l, w < 2 ^ 64
  | [], _ => by simp [toWords]
  | [_], _ => by simp [toWords]
  | [_, _], _ => by simp [toWords]
  | [_, _, _], _ => by simp [toWords]
  | [_, _, _, _], _ => by simp [toWords]
  | [_, _, _, _, _], _ => by simp [toWords]
  | [_, _, _, _, _, _], _ => by simp [toWords]
  | [_, _, _, _, _, _, _], _ => by simp [toWords]
  | b0 :: b1 :: b2 :: b3 :: b4 :: b5 :: b6 :: b7 :: rest, h => by
      intro w hw
      simp only [toWords, List.mem_cons] at hw
      rcases hw with rfl | hw
      · have h0 := h b0 (by simp)
        have h1 := h b1 (by simp)
        have h2 := h b2 (by simp)
        have h3 := h b3 (by simp)
        have h4 := h b4 (by simp)
        have h5 := h b5 (by simp)
        have h6 := h b6 (by simp)
        have h7 := h b7 (by simp)
        omega
      · exact toWords_lt rest (fun b hb => h b (by simp [hb])) w hw

theorem chunk16_map {α β : Type} (f : α → β) : ∀ (l : List α),
    chunk16 (List.map f l) = List.map (List.map f) (chunk16 l)
  | [] => rfl
  | [_] => rfl
  | [_, _] => rfl
  | [_, _, _] => rfl
  | [_, _, _, _] => rfl
  | [_, _, _, _, _] => rfl
  | [_, _, _, _, _, _] => rfl
  | [_, _, _, _, _, _, _] => rfl
  | [_, _, _, _, _, _, _, _] => rfl
  | [_, _, _, _, _, _, _, _, _] => rfl
  | [_, _, _, _, _, _, _, _, _, _] => rfl
  | [_, _, _, _, _, _, _, _, _, _, _] => rfl
  | [_, _, _, _, _, _, _, _, _, _, _, _] => rfl
  | [_, _, _, _, _, _, _, _, _, _, _, _, _] => rfl
  | [_, _, _, _, _, _, _, _, _, _, _, _, _, _] => rfl
  | [_, _, _, _, _, _, _, _, _, _, _, _, _, _, _] => rfl
  | a0 :: a1 :: a2 :: a3 :: a4 :: a5 :: a6 :: a7 ::
    a8 :: a9 :: a10 :: a11 :: a12 :: a13 :: a14 :: a15 :: rest => by
      simp only [List.map, chunk16, List.cons.injEq, true_and]
      exact chunk16_map f rest

theorem chunk16_forall {α : Type} (P : α → Prop) : ∀ (l : List α), (∀ b ∈ l, P b) →
    ∀ bl ∈ chunk16 l, ∀ w ∈ bl, P w
  | [], _ => by simp [chunk16]
  | [_], _ => by simp [chunk16]
  | [_, _], _ => by simp [chunk16]
  | [_, _, _], _ => by simp [chunk16]
  | [_, _, _, _], _ => by simp [chunk16]
  | [_, _, _, _, _], _ => by simp [chunk16]
  | [_, _, _, _, _, _], _ => by simp [chunk16]
  | [_, _, _, _, _, _, _], _ => by simp [chunk16]
  | [_, _, _, _, _, _, _, _], _ => by simp [chunk16]
  | [_, _, _, _, _, _, _, _, _], _ => by simp [chunk16]
  | [_, _, _, _, _, _, _, _, _, _], _ => by simp [chunk16]
  | [_, _, _, _, _, _, _, _, _, _, _], _ => by simp [chunk16]
  | [_, _, _, _, _, _, _, _, _, _, _, _], _ => by simp [chunk16]
  | [_, _, _, _, _, _, _, _, _, _, _, _, _], _ => by simp [chunk16]
  | [_, _, _, _, _, _, _, _, _, _, _, _, _, _], _ => by simp [chunk16]
  | [_, _, _, _, _, _, _, _, _, _, _, _, _, _, _], _ => by simp [chunk16]
  | a0 :: a1 :: a2 :: a3 :: a4 :: a5 :: a6 :: a7 ::
    a8 :: a9 :: a10 :: a11 :: a12 :: a13 :: a14 :: a15 :: rest, h => by
      intro bl hbl w hw
      simp only [chunk16, List.mem_cons] at hbl
      rcases hbl with rfl | hbl
      · fin_cases hw <;> exact h _ (by simp)
      · exact chunk16_forall P rest (fun b hb => h b (by simp [hb])) bl hbl w hw

/-- The half-word image of a 64-bit hash state. -/
def prSt (s : RefSt) : JsSt :=
  ⟨s.a >>> 32, s.a % 2 ^ 32, s.b >>> 32, s.b % 2 ^ 32, s.c >>> 32, s.c % 2 ^ 32,
   s.d >>> 32, s.d % 2 ^ 32, s.e >>> 32, s.e % 2 ^ 32, s.f >>> 32, s.f % 2 ^ 32,
   s.g >>> 32, s.g % 2 ^ 32, s.h >>> 32, s.h % 2 ^ 32⟩

/-- All eight working variables are genuine 64-bit words. -/
def BSt (s : RefSt) : Prop :=
  s.a < 2 ^ 64 ∧ s.b < 2 ^ 64 ∧ s.c < 2 ^ 64 ∧ s.d < 2 ^ 64 ∧
  s.e < 2 ^ 64 ∧ s.f < 2 ^ 64 ∧ s.g < 2 ^ 64 ∧ s.h < 2 ^ 64

theorem jsRound_pr (s : RefSt) (hb : BSt s) (k w : Nat) :
    jsRoundN (prSt s) (pr k, pr w) = prSt (refRound s (k, w)) := by
  obtain ⟨ha, hbv, hc, hd, he, hf, hg, h8⟩ := hb
  have hS1 : rotr s.e 14 ^^^ rotr s.e 18 ^^^ rotr s.e 41 < 2 ^ 64 :=
    xor64_lt (xor64_lt (rotr_lt ..) (rotr_lt ..)) (rotr_lt ..)
  have hch : (s.e &&& s.f) ^^^ ((s.e ^^^ (2 ^ 64 - 1)) &&& s.g) < 2 ^ 64 :=
    xor64_lt (Nat.and_lt_two_pow _ hf) (Nat.and_lt_two_pow _ hg)
  have hS0 : rotr s.a 28 ^^^ rotr s.a 34 ^^^ rotr s.a 39 < 2 ^ 64 :=
    xor64_lt (xor64_lt (rotr_lt ..) (rotr_lt ..)) (rotr_lt ..)
  have hmaj : (s.a &&& s.b) ^^^ (s.a &&& s.c) ^^^ (s.b &&& s.c) < 2 ^ 64 :=
    xor64_lt (xor64_lt (Nat.and_lt_two_pow _ hbv) (Nat.and_lt_two_pow _ hc))
      (Nat.and_lt_two_pow _ hc)
  simp only [jsRoundN, refRound, prSt, bsig1, bsig0, chF, majF, pr]
  rw [rotr64_pr_lo 14 (by norm_num) (by norm_num),
      rotr64_pr_lo 18 (by norm_num) (by norm_num),
      rotr64_pr_hi 41 he (by norm_num) (by norm_num),
      rotr64_pr_lo 28 (by norm_num) (by norm_num),
      rotr64_pr_hi 34 ha (by norm_num) (by norm_num),
      rotr64_pr_hi 39 ha (by norm_num) (by norm_num)]
  dsimp only
  rw [not_hi, not_lo]
  rw [land_hi, land_hi, land_hi, land_hi, land_hi,
      land_lo, land_lo, land_lo, land_lo, land_lo]
  rw [xor_hi, xor_hi, xor_hi, xor_hi, xor_hi, xor_hi, xor_hi,
      xor_lo, xor_lo, xor_lo, xor_lo, xor_lo, xor_lo, xor_lo]
  rw [u32_hi hS1, u32_hi hch, u32_hi hS0, u32_hi hmaj, u32_lo, u32_lo, u32_lo, u32_lo]
  rw [add64_pr]
  dsimp only
  rw [add64_pr]
  dsimp only
  rw [add64_pr]
  dsimp only
  rw [add64_pr]
  dsimp only
  rw [add64_pr]
  dsimp only
  rw [add64_pr, add64_pr]

theorem BSt_refRound (s : RefSt) (hb : BSt s) (kw : Nat × Nat) : BSt (refRound s kw) := by
  obtain ⟨ha, hbv, hc, _, he, hf, hg, _⟩ := hb
  exact ⟨u64_lt _, ha, hbv, hc, u64_lt _, he, hf, hg⟩

theorem foldl_rounds_pr (kws : List (Nat × Nat)) (s : RefSt) (hb : BSt s) :
    List.foldl jsRoundN (prSt s) (List.map (Prod.map pr pr) kws)
      = prSt (List.foldl refRound s kws) := by
  induction kws generalizing s with
  | nil => rfl
  | cons p t ih =>
      simp only [List.map_cons, List.foldl_cons]
      have h1 : Prod.map pr pr p = (pr p.1, pr p.2) := rfl
      rw [h1, jsRound_pr s hb p.1 p.2]
      simp only [Prod.mk.eta]
      exact ih (refRound s p) (BSt_refRound s hb p)

theorem hK_pairs : pairUp K = List.map pr refK := by decide

theorem jsBlockStep_pr (s : RefSt) (hb : BSt s) (bw : List Nat)
    (hw : ∀ w ∈ bw, w < 2 ^ 64) :
    jsBlockStepN (prSt s) (List.map pr bw) = prSt (refBlockStep s bw) := by
  simp only [jsBlockStepN, refBlockStep]
  rw [jsSchedule_pr bw hw, hK_pairs, List.zip_map]
  rw [foldl_rounds_pr _ s hb]
  dsimp only [prSt]
  rw [add64_pr, add64_pr, add64_pr, add64_pr, add64_pr, add64_pr, add64_pr, add64_pr]

theorem BSt_refBlockStep (s : RefSt) (bw : List Nat) : BSt (refBlockStep s bw) :=
  ⟨u64_lt _, u64_lt _, u64_lt _, u64_lt _, u64_lt _, u64_lt _, u64_lt _, u64_lt _⟩

theorem foldl_blocks_pr (blocks : List (List Nat)) (s : RefSt) (hb : BSt s)
    (hw : ∀ bl ∈ blocks, ∀ w ∈ bl, w < 2 ^ 64) :
    List.foldl jsBlockStepN (prSt s) (List.map (List.map pr) blocks)
      = prSt (List.foldl refBlockStep s blocks) := by
  induction blocks generalizing s with
  | nil => rfl
  | cons bl t ih =>
      simp only [List.map_cons, List.foldl_cons]
      rw [jsBlockStep_pr s hb bl (hw bl (by simp))]
      exact ih (refBlockStep s bl) (BSt_refBlockStep s bl)
        (fun b h2 w h3 => hw b (by simp [h2]) w h3)

theorem beBytes_append (a b n : Nat) :
    beBytes (a + b) n = beBytes a (n / 256 ^ b) ++ beBytes b n := by
  induction b generalizing n with
  | zero => simp [beBytes]
  | succ m ih =>
      have h1 : a + (m + 1) = (a + m) + 1 := rfl
      rw [h1, beBytes, ih (n / 256), beBytes]
      rw [Nat.div_div_eq_div_mul]
      have h2 : 256 * 256 ^ m = 256 ^ (m + 1) := by rw [pow_succ]; ring
      rw [h2, List.append_assoc]

theorem beBytes_mod (k n : Nat) : beBytes k (n % 256 ^ k) = beBytes k n := by
  induction k generalizing n with
  | zero => rfl
  | succ m ih =>
      rw [beBytes, beBytes]
      have h1 : n % 256 ^ (m + 1) % 256 = n % 256 :=
        Nat.mod_mod_of_dvd n ⟨256 ^ m, by rw [pow_succ]; ring⟩
      have h2 : n % 256 ^ (m + 1) / 256 = n / 256 % 256 ^ m := by
        rw [pow_succ']
        exact Nat.mod_mul_right_div_self n 256 (256 ^ m)
      rw [h1, h2, ih (n / 256)]

theorem beBytes_length (k n : Nat) : (beBytes k n).length = k := by
  induction k generalizing n with
  | zero => rfl
  | succ m ih => simp [beBytes, ih]

theorem beBytes_bytes (k n : Nat) : ∀ b ∈ beBytes k n, b < 256 := by
  induction k generalizing n with
  | zero => simp [beBytes]
  | succ m ih =>
      intro b hb
      rw [beBytes] at hb
      rcases List.mem_append.mp hb with h | h
      · exact ih (n / 256) b h
      · simp at h
        subst h
        exact Nat.mod_lt _ (by norm_num)

theorem beBytes8_split (x : Nat) :
    beBytes 8 x = beBytes 4 (x >>> 32) ++ beBytes 4 (x % 2 ^ 32) := by
  have h1 := beBytes_append 4 4 x
  have h2 : (4 : Nat) + 4 = 8 := rfl
  rw [h2] at h1
  rw [h1, Nat.shiftRight_eq_div_pow]
  have h3 : (256 : Nat) ^ 4 = 2 ^ 32 := by norm_num
  rw [h3, ← beBytes_mod 4 x, h3]

theorem jsPad_eq_refPad (msg : List Nat) (h : msg.length * 8 < 2 ^ 64) :
    jsPad msg = refPad msg := by
  simp only [jsPad, refPad]
  have h1 : u32 (msg.length * 8 / 2 ^ 32) = msg.length * 8 / 2 ^ 32 := by
    unfold u32
    omega
  have h2 : beBytes 16 (msg.length * 8)
      = List.replicate 8 0 ++ (beBytes 4 (msg.length * 8 / 2 ^ 32)
          ++ beBytes 4 (u32 (msg.length * 8))) := by
    have e1 := beBytes_append 8 8 (msg.length * 8)
    have e2 : (8 : Nat) + 8 = 16 := rfl
    rw [e2] at e1
    have e3 : msg.length * 8 / 256 ^ 8 = 0 := by
      apply Nat.div_eq_of_lt
      calc msg.length * 8 < 2 ^ 64 := h
      _ ≤ 256 ^ 8 := by norm_num
    have e4 : beBytes 8 0 = List.replicate 8 0 := by decide
    rw [e1, e3, e4, beBytes8_split, u32, Nat.shiftRight_eq_div_pow]
  rw [h1, h2, List.replicate_add]
  simp [List.append_assoc]

theorem refPad_bytes (msg : List Nat) (hb : ∀ b ∈ msg, b < 256) :
    ∀ b ∈ refPad msg, b < 256 := by
  intro b hbm
  simp only [refPad, List.append_assoc, List.mem_append] at hbm
  rcases hbm with h | h | h | h
  · exact hb b h
  · simp at h
    omega
  · have := List.eq_of_mem_replicate h
    omega
  · exact beBytes_bytes _ _ b h

theorem sha512_eq_sha512Spec (msg : List Nat) (hb : ∀ b ∈ msg, b < 256)
    (hl : msg.length * 8 < 2 ^ 64) : sha512N msg = sha512Spec msg := by
  have hpb : ∀ b ∈ refPad msg, b < 256 := refPad_bytes msg hb
  have hwlt : ∀ w ∈ toWords (refPad msg), w < 2 ^ 64 := toWords_lt _ hpb
  have hblocks : ∀ bl ∈ chunk16 (toWords (refPad msg)), ∀ w ∈ bl, w < 2 ^ 64 :=
    chunk16_forall _ _ hwlt
  have hInit : jsInitN = prSt refInit := by decide
  have hBInit : BSt refInit :=
    ⟨by decide, by decide, by decide, by decide, by decide, by decide, by decide, by decide⟩
  simp only [sha512N, sha512Spec]
  rw [jsPad_eq_refPad msg hl, toPairs_toWords _ hpb, chunk16_map, hInit,
      foldl_blocks_pr _ refInit hBInit hblocks]
  dsimp only [prSt]
  rw [beBytes8_split, beBytes8_split, beBytes8_split, beBytes8_split,
      beBytes8_split, beBytes8_split, beBytes8_split, beBytes8_split]
  simp [List.append_assoc]

theorem sha512Spec_length (msg : List Nat) : (sha512Spec msg).length = 64 := by
  simp [sha512Spec, beBytes_length]

theorem sha512Spec_bytes (msg : List Nat) : ∀ b ∈ sha512Spec msg, b < 256 := by
  intro b hb
  simp only [sha512Spec, List.append_assoc, List.mem_append] at hb
  rcases hb with h|h|h|h|h|h|h|h <;> exact beBytes_bytes _ _ b h

theorem byte_xor_lt {b c : Nat} (h : b < 256) (hc : c < 256) : b ^^^ c < 256 := by
  have e : (2 : Nat) ^ 8 = 256 := by norm_num
  rw [← e] at h hc ⊢
  exact Nat.xor_lt_two_pow h hc

theorem hmac_eq_hmacSpec (key data : List Nat) (hkb : ∀ b ∈ key, b < 256)
    (hdb : ∀ b ∈ data, b < 256) (hkl : key.length * 8 < 2 ^ 64)
    (hdl : (128 + data.length) * 8 < 2 ^ 64) :
    hmac_sha512N key data = hmacSpec key data := by
  simp only [hmac_sha512N, hmacSpec]
  rw [show (if 128 < key.length then sha512N key else key)
        = (if 128 < key.length then sha512Spec key else key) by
      split
      · exact sha512_eq_sha512Spec key hkb hkl
      · rfl]
  set ak := if 128 < key.length then sha512Spec key else key with hak
  have hakb : ∀ b ∈ ak, b < 256 := by
    rw [hak]
    split
    · exact sha512Spec_bytes key
    · exact hkb
  have hakl : ak.length ≤ 128 := by
    rw [hak]
    split
    · rw [sha512Spec_length]
      norm_num
    · omega
  have hpkl : (ak ++ List.replicate (128 - ak.length) 0).length = 128 := by
    simp
    omega
  have hpkb : ∀ b ∈ ak ++ List.replicate (128 - ak.length) 0, b < 256 := by
    intro b hbm
    rcases List.mem_append.mp hbm with h | h
    · exact hakb b h
    · have := List.eq_of_mem_replicate h
      omega
  have hib : ∀ b ∈ (ak ++ List.replicate (128 - ak.length) 0).map (fun x => x ^^^ 0x36)
      ++ data, b < 256 := by
    intro b hbm
    rcases List.mem_append.mp hbm with h | h
    · obtain ⟨c, hc, rfl⟩ := List.mem_map.mp h
      exact byte_xor_lt (hpkb c hc) (by norm_num)
    · exact hdb b h
  have hil : ((ak ++ List.replicate (128 - ak.length) 0).map (fun x => x ^^^ 0x36)
      ++ data).length * 8 < 2 ^ 64 := by
    simp only [List.length_append, List.length_map, hpkl]
    omega
  rw [sha512_eq_sha512Spec _ hib hil]
  have hob : ∀ b ∈ (ak ++ List.replicate (128 - ak.length) 0).map (fun x => x ^^^ 0x5c)
      ++ sha512Spec ((ak ++ List.replicate (128 - ak.length) 0).map (fun x => x ^^^ 0x36)
        ++ data), b < 256 := by
    intro b hbm
    rcases List.mem_append.mp hbm with h | h
    · obtain ⟨c, hc, rfl⟩ := List.mem_map.mp h
      exact byte_xor_lt (hpkb c hc) (by norm_num)
    · exact sha512Spec_bytes _ b h
  have hol : ((ak ++ List.replicate (128 - ak.length) 0).map (fun x => x ^^^ 0x5c)
      ++ sha512Spec ((ak ++ List.replicate (128 - ak.length) 0).map (fun x => x ^^^ 0x36)
        ++ data)).length * 8 < 2 ^ 64 := by
    simp only [List.length_append, List.length_map, hpkl, sha512Spec_length]
    norm_num
  rw [sha512_eq_sha512Spec _ hob hol]

theorem replicate_bytes (n c : Nat) (hc : c < 256) :
    ∀ b ∈ List.replicate n c, b < 256 := by
  intro b hb
  have := List.eq_of_mem_replicate hb
  omega

/-!
Part 4: SHA-256, modelled from the standard (FIPS 180-4).  The server
routes of the repository call the platform hash `createHash('sha256')`
(node:crypto, outside the repository); this transcription of the
standard algorithm stands in for it.
-/

/-- The 64 32-bit round constants of FIPS 180-4 (SHA-256): the first 32
bits of the fractional parts of the cube roots of the first 64 primes,
i.e. exactly the high halves of the first 64 SHA-512 constants of `K`
(floor commutes with taking the high word).  Pinned against the
published SHA-256 digests of the empty input and "abc" below. -/
def sha256K : List Nat := ((pairUp K).take 64).map (fun p => p.1)

/-- 32-bit rotate right. -/
def rotr32 (x n : Nat) : Nat := u32 ((x >>> n) ||| (x <<< (32 - n)))

/-- SHA-256 padding: `0x80`, zeros, 64-bit big-endian bit length. -/
def sha256Pad (msg : List Nat) : List Nat :=
  let z := (64 - ((msg.length + 9) % 64)) % 64
  msg ++ [0x80] ++ List.replicate z 0 ++ beBytes 8 (msg.length * 8)

/-- 4 big-endian bytes to one 32-bit word. -/
def toWords32 : List Nat → List Nat
  | b0 :: b1 :: b2 :: b3 :: rest =>
      (((b0 * 256 + b1) * 256 + b2) * 256 + b3) :: toWords32 rest
  | _ => []

/-- SHA-256 schedule step `w[i] = w[i-16] + σ0(w[i-15]) + w[i-7] + σ1(w[i-2])`,
with the already-computed words most recent first. -/
def sha256ExtendStep (acc : List Nat) : Nat :=
  let w15 := acc.getD 14 0
  let s0 := rotr32 w15 7 ^^^ rotr32 w15 18 ^^^ (w15 >>> 3)
  let w2 := acc.getD 1 0
  let s1 := rotr32 w2 17 ^^^ rotr32 w2 19 ^^^ (w2 >>> 10)
  u32 (acc.getD 15 0 + s0 + acc.getD 6 0 + s1)

def sha256Extend : Nat → List Nat → List Nat
  | 0, acc => acc
  | n + 1, acc => sha256Extend n (sha256ExtendStep acc :: acc)

def sha256Schedule (block : List Nat) : List Nat :=
  (sha256Extend 48 block.reverse).reverse

/-- One SHA-256 compression round. -/
def sha256Round (s : RefSt) (kw : Nat × Nat) : RefSt :=
  let S1 := rotr32 s.e 6 ^^^ rotr32 s.e 11 ^^^ rotr32 s.e 25
  let chV := (s.e &&& s.f) ^^^ ((s.e ^^^ (2 ^ 32 - 1)) &&& s.g)
  let t1 := u32 (s.h + S1 + chV + kw.1 + kw.2)
  let S0 := rotr32 s.a 2 ^^^ rotr32 s.a 13 ^^^ rotr32 s.a 22
  let majV := (s.a &&& s.b) ^^^ (s.a &&& s.c) ^^^ (s.b &&& s.c)
  let t2 := u32 (S0 + majV)
  ⟨u32 (t1 + t2), s.a, s.b, s.c, u32 (s.d + t1), s.e, s.f, s.g⟩

def sha256BlockStep (hs : RefSt) (block : List Nat) : RefSt :=
  let t := List.foldl sha256Round hs (sha256K.zip (sha256Schedule block))
  ⟨u32 (hs.a + t.a), u32 (hs.b + t.b), u32 (hs.c + t.c), u32 (hs.d + t.d),
   u32 (hs.e + t.e), u32 (hs.f + t.f), u32 (hs.g + t.g), u32 (hs.h + t.h)⟩

/-- The initial hash values H0..H7 of FIPS 180-4 (SHA-256). -/
def sha256Init : RefSt :=
  ⟨1779033703, 3144134277, 1013904242, 2773480762,
   1359893119, 2600822924, 528734635, 1541459225⟩

/-- SHA-256 on byte lists (the `createHash('sha256')` digest). -/
def sha256 (data : List Nat) : List Nat :=
  let fin := List.foldl sha256BlockStep sha256Init (chunk16 (toWords32 (sha256Pad data)))
  beBytes 4 fin.a ++ beBytes 4 fin.b ++ beBytes 4 fin.c ++ beBytes 4 fin.d ++
  beBytes 4 fin.e ++ beBytes 4 fin.f ++ beBytes 4 fin.g ++ beBytes 4 fin.h

/-!
Encoders used by the route handlers: lowercase hex (`digest('hex')`),
base64url without padding (`Buffer.toString('base64url')`), and the
UTF-8 encoding of strings fed to the hashes.
-/

def hexDigit (n : Nat) : Char := "0123456789abcdef".toList.getD n '0'

def hexEncode (l : List Nat) : String :=
  String.mk ((l.map (fun b => [hexDigit (b / 16), hexDigit (b % 16)])).flatten)

def b64Char (n : Nat) : Char :=
  "ABCDEFGHIJKLMNOPQRSTUVWXYZabcdefghijklmnopqrstuvwxyz0123456789-_".toList.getD n 'A'

def base64urlChars : List Nat → List Char
  | b0 :: b1 :: b2 :: rest =>
      b64Char (b0 >>> 2) :: b64Char (((b0 &&& 3) <<< 4) ||| (b1 >>> 4)) ::
      b64Char (((b1 &&& 15) <<< 2) ||| (b2 >>> 6)) :: b64Char (b2 &&& 63) ::
      base64urlChars rest
  | [b0, b1] =>
      [b64Char (b0 >>> 2), b64Char (((b0 &&& 3) <<< 4) ||| (b1 >>> 4)),
       b64Char ((b1 &&& 15) <<< 2)]
  | [b0] => [b64Char (b0 >>> 2), b64Char ((b0 &&& 3) <<< 4)]
  | [] => []

def base64url (l : List Nat) : String := String.mk (base64urlChars l)

/-- UTF-8 encoding of one character. -/
def utf8Char (c : Char) : List Nat :=
  let n := c.toNat
  if n < 0x80 then [n]
  else if n < 0x800 then [0xC0 ||| (n >>> 6), 0x80 ||| (n &&& 0x3F)]
  else if n < 0x10000 then
    [0xE0 ||| (n >>> 12), 0x80 ||| ((n >>> 6) &&& 0x3F), 0x80 ||| (n &&& 0x3F)]
  else
    [0xF0 ||| (n >>> 18), 0x80 ||| ((n >>> 12) &&& 0x3F),
     0x80 ||| ((n >>> 6) &&& 0x3F), 0x80 ||| (n &&& 0x3F)]

/-- UTF-8 bytes of a string. -/
def utf8 (s : String) : List Nat := (s.data.map utf8Char).flatten

/-!
Part 4b: the FAITHFUL embedding of the sha512 of hmac_sha512.web.ts.
JS numbers are modelled as `Int`: values read from the `Int32Array`s
`wh`/`wl` (and every `getInt32`) are SIGNED 32-bit values, `>>> 0` is
`u32I` (ToUint32), `<<` and the bitwise operators return ToInt32
results, and the `add64` carry comparison `lo < al` is an ordinary
numeric comparison — on a negative `al` it never fires.  This is the
single point where the source deviates from the standard algorithm: the
carry-normalized variant of Part 1 (`sha512N`) is proved equal to the
FIPS 180-4 reference, while this faithful embedding computes different
digests (see `C1_sha512_deviates_from_standard`).
-/

/-- ECMAScript ToUint32 (`x >>> 0`) as a non-negative `Int`. -/
def u32I (x : Int) : Int := x % 4294967296

/-- ECMAScript ToInt32: the value stored in and read from an `Int32Array`. -/
def i32 (x : Int) : Int :=
  if u32I x < 2147483648 then u32I x else u32I x - 4294967296

/-- The 32-bit pattern of a JS number, as a `Nat`. -/
def patI (x : Int) : Nat := (u32I x).toNat

/-- JS `x | y` (an Int32 result). -/
def lorI (x y : Int) : Int := i32 ((patI x ||| patI y : Nat) : Int)

/-- JS `x ^ y` (an Int32 result). -/
def lxorI (x y : Int) : Int := i32 ((patI x ^^^ patI y : Nat) : Int)

/-- JS `x & y` (an Int32 result). -/
def landI (x y : Int) : Int := i32 ((patI x &&& patI y : Nat) : Int)

/-- JS `~x`. -/
def notI (x : Int) : Int := i32 ((patI x ^^^ 4294967295 : Nat) : Int)

/-- JS `x >>> n` (an unsigned result). -/
def jsShrI (x : Int) (n : Nat) : Int := ((patI x >>> (n % 32) : Nat) : Int)

/-- JS `x << n` (an Int32 result). -/
def jsShlI (x : Int) (n : Nat) : Int := i32 (((patI x <<< (n % 32)) : Nat) : Int)

/-- `add64` of hmac_sha512.web.ts, faithfully: the carry fires iff
`lo < al` as JS numbers, where `al` may be a signed `Int32Array` read. -/
def add64 (ah al bh bl : Int) : Int × Int :=
  let lo := u32I (al + bl)
  let hi := u32I (ah + bh + (if lo < al then 1 else 0))
  (hi, lo)

/-- `rotr64` of hmac_sha512.web.ts. -/
def rotr64 (h l : Int) (n : Nat) : Int × Int :=
  if n < 32 then
    (u32I (lorI (jsShrI h n) (jsShlI l (32 - n))),
     u32I (lorI (jsShrI l n) (jsShlI h (32 - n))))
  else
    (u32I (lorI (jsShrI l (n - 32)) (jsShlI h (32 - (n - 32)))),
     u32I (lorI (jsShrI h (n - 32)) (jsShlI l (32 - (n - 32)))))

/-- `shr64` of hmac_sha512.web.ts. -/
def shr64 (h l : Int) (n : Nat) : Int × Int :=
  if n < 32 then (jsShrI h n, u32I (lorI (jsShrI l n) (jsShlI h (32 - n))))
  else (0, jsShrI h (n - 32))

/-- The `view.getInt32` word reads: 8 big-endian bytes become one SIGNED
(hi, lo) pair. -/
def toPairsI : List Nat → List (Int × Int)
  | b0 :: b1 :: b2 :: b3 :: b4 :: b5 :: b6 :: b7 :: rest =>
      (i32 ((((b0 * 256 + b1) * 256 + b2) * 256 + b3 : Nat) : Int),
       i32 ((((b4 * 256 + b5) * 256 + b6) * 256 + b7 : Nat) : Int)) :: toPairsI rest
  | _ => []

/-- Schedule extension step; `acc` holds `Int32Array` contents (signed),
most recent first, so `w[i-2] = acc[1]`, `w[i-7] = acc[6]`,
`w[i-15] = acc[14]`, `w[i-16] = acc[15]`. -/
def jsExtendStep (acc : List (Int × Int)) : Int × Int :=
  let w15 := acc.getD 14 (0, 0)
  let a1 := rotr64 w15.1 w15.2 1
  let a2 := rotr64 w15.1 w15.2 8
  let a3 := shr64 w15.1 w15.2 7
  let s0h := u32I (lxorI (lxorI a1.1 a2.1) a3.1)
  let s0l := u32I (lxorI (lxorI a1.2 a2.2) a3.2)
  let w2 := acc.getD 1 (0, 0)
  let b1 := rotr64 w2.1 w2.2 19
  let b2 := rotr64 w2.1 w2.2 61
  let b3 := shr64 w2.1 w2.2 6
  let s1h := u32I (lxorI (lxorI b1.1 b2.1) b3.1)
  let s1l := u32I (lxorI (lxorI b1.2 b2.2) b3.2)
  let w16 := acc.getD 15 (0, 0)
  let w7 := acc.getD 6 (0, 0)
  let r1 := add64 w16.1 w16.2 s0h s0l
  let r2 := add64 r1.1 r1.2 w7.1 w7.2
  add64 r2.1 r2.2 s1h s1l

def jsExtend : Nat → List (Int × Int) → List (Int × Int)
  | 0, acc => acc
  | n + 1, acc =>
      let w := jsExtendStep acc
      jsExtend n ((i32 w.1, i32 w.2) :: acc)

/-- The 80-entry message schedule of one block, as stored in `wh`/`wl`. -/
def jsSchedule (block : List (Int × Int)) : List (Int × Int) :=
  (jsExtend 64 block.reverse).reverse

/-- The working variables as JS numbers (plain `let`s, never coerced). -/
structure JsStI where
  ah : Int
  al : Int
  bh : Int
  bl : Int
  ch : Int
  cl : Int
  dh : Int
  dl : Int
  eh : Int
  el : Int
  fh : Int
  fl : Int
  gh : Int
  gl : Int
  hh : Int
  hl : Int
  deriving Repr, DecidableEq

/-- One round of the compression loop, faithfully. -/
def jsRound (s : JsStI) (kw : (Int × Int) × (Int × Int)) : JsStI :=
  let e14 := rotr64 s.eh s.el 14
  let e18 := rotr64 s.eh s.el 18
  let e41 := rotr64 s.eh s.el 41
  let S1h := u32I (lxorI (lxorI e14.1 e18.1) e41.1)
  let S1l := u32I (lxorI (lxorI e14.2 e18.2) e41.2)
  let chh := u32I (lxorI (landI s.eh s.fh) (landI (notI s.eh) s.gh))
  let chl := u32I (lxorI (landI s.el s.fl) (landI (notI s.el) s.gl))
  let t1a := add64 s.hh s.hl S1h S1l
  let t1b := add64 t1a.1 t1a.2 chh chl
  let t1c := add64 t1b.1 t1b.2 kw.1.1 kw.1.2
  let t1 := add64 t1c.1 t1c.2 kw.2.1 kw.2.2
  let a28 := rotr64 s.ah s.al 28
  let a34 := rotr64 s.ah s.al 34
  let a39 := rotr64 s.ah s.al 39
  let S0h := u32I (lxorI (lxorI a28.1 a34.1) a39.1)
  let S0l := u32I (lxorI (lxorI a28.2 a34.2) a39.2)
  let majh := u32I (lxorI (lxorI (landI s.ah s.bh) (landI s.ah s.ch)) (landI s.bh s.ch))
  let majl := u32I (lxorI (lxorI (landI s.al s.bl) (landI s.al s.cl)) (landI s.bl s.cl))
  let t2 := add64 S0h S0l majh majl
  let e' := add64 s.dh s.dl t1.1 t1.2
  let a' := add64 t1.1 t1.2 t2.1 t2.2
  ⟨a'.1, a'.2, s.ah, s.al, s.bh, s.bl, s.ch, s.cl,
   e'.1, e'.2, s.eh, s.el, s.fh, s.fl, s.gh, s.gl⟩

/-- The `K` table as JS numbers ((hi, lo) per round). -/
def KI : List (Int × Int) := (pairUp K).map (fun p => ((p.1 : Int), (p.2 : Int)))

def jsBlockStep (hs : JsStI) (block : List (Int × Int)) : JsStI :=
  let t := List.foldl jsRound hs (KI.zip (jsSchedule block))
  let x0 := add64 hs.ah hs.al t.ah t.al
  let x1 := add64 hs.bh hs.bl t.bh t.bl
  let x2 := add64 hs.ch hs.cl t.ch t.cl
  let x3 := add64 hs.dh hs.dl t.dh t.dl
  let x4 := add64 hs.eh hs.el t.eh t.el
  let x5 := add64 hs.fh hs.fl t.fh t.fl
  let x6 := add64 hs.gh hs.gl t.gh t.gl
  let x7 := add64 hs.hh hs.hl t.hh t.hl
  ⟨x0.1, x0.2, x1.1, x1.2, x2.1, x2.2, x3.1, x3.2,
   x4.1, x4.2, x5.1, x5.2, x6.1, x6.2, x7.1, x7.2⟩

/-- The initial hash values h0..h7 of the source. -/
def jsInit : JsStI :=
  ⟨0x6a09e667, 0xf3bcc908, 0xbb67ae85, 0x84caa73b,
   0x3c6ef372, 0xfe94f82b, 0xa54ff53a, 0x5f1d36f1,
   0x510e527f, 0xade682d1, 0x9b05688c, 0x2b3e6c1f,
   0x1f83d9ab, 0xfb41bd6b, 0x5be0cd19, 0x137e2179⟩

/-- `sha512` of hmac_sha512.web.ts, faithfully embedded on byte lists. -/
def sha512 (data : List Nat) : List Nat :=
  let fin := List.foldl jsBlockStep jsInit (chunk16 (toPairsI (jsPad data)))
  beBytes 4 (patI fin.ah) ++ beBytes 4 (patI fin.al) ++
  beBytes 4 (patI fin.bh) ++ beBytes 4 (patI fin.bl) ++
  beBytes 4 (patI fin.ch) ++ beBytes 4 (patI fin.cl) ++
  beBytes 4 (patI fin.dh) ++ beBytes 4 (patI fin.dl) ++
  beBytes 4 (patI fin.eh) ++ beBytes 4 (patI fin.el) ++
  beBytes 4 (patI fin.fh) ++ beBytes 4 (patI fin.fl) ++
  beBytes 4 (patI fin.gh) ++ beBytes 4 (patI fin.gl) ++
  beBytes 4 (patI fin.hh) ++ beBytes 4 (patI fin.hl)

/-- `hmac_sha512` of hmac_sha512.web.ts over the faithful `sha512`. -/
def hmac_sha512 (key data : List Nat) : List Nat :=
  let actualKey := if 128 < key.length then sha512 key else key
  let paddedKey := actualKey ++ List.replicate (128 - actualKey.length) 0
  let innerKey := paddedKey.map (fun b => b ^^^ 0x36)
  let outerKey := paddedKey.map (fun b => b ^^^ 0x5c)
  sha512 (outerKey ++ sha512 (innerKey ++ data))

/-!
Part 5: the LDAP module (`modules/ldap`): `cleanUsername` and
`authenticate`.  The external directory is modelled by a bind oracle
`bind : server → bindDn → password → Bool`; the returned trace lists the
servers on which a bind was attempted, in order.  Both connection
errors and credential failures make `bind` return `false`: the source
continues to the next server on any error, distinguishing the two kinds
only in its log line.
-/

/-- `cleanUsername`: JS "username.includes(backslash) ? split + pop :
username" — when a backslash occurs, keep the suffix after the last
backslash (the fold resets its accumulator on every backslash). -/
def cleanUsername (username : String) : String :=
  if username.data.contains '\\' then
    String.mk (username.data.foldl (fun acc c => if c = '\\' then [] else acc ++ [c]) [])
  else username

structure LdapConfig where
  servers : List String
  netbios : String
  domain : String
  baseDn : String

structure AuthOutcome where
  success : Bool
  error : Option String
  deriving Repr, DecidableEq

def authenticateGo (bind : String → String → String → Bool) (bindDn password : String) :
    List String → AuthOutcome × List String
  | [] => (⟨false, some "Invalid credentials"⟩, [])
  | server :: rest =>
      if bind server bindDn password then (⟨true, none⟩, [server])
      else
        let r := authenticateGo bind bindDn password rest
        (r.1, server :: r.2)

/-- `authenticate` of the LDAP module: try each configured server in
order with a simple bind as `netbios\cleanUsername`. -/
def ldapAuthenticate (config : LdapConfig) (bind : String → String → String → Bool)
    (username password : String) : AuthOutcome × List String :=
  let name := cleanUsername username
  let bindDn := config.netbios ++ "\\" ++ name
  authenticateGo bind bindDn password config.servers

/-!
Part 6: the auth routes (`authRoutes`).  The persistent store is an
association list; `privacyKit.decodeBase64` is external, so handlers
receive the already-decoded public key bytes; `tweetnacl.box.publicKeyLength`
is 32.  JS truthiness of the stored `response`/`responseAccountId`
strings (`null` and `""` are both falsy) is modelled by `truthy`.
-/

def truthy : Option String → Bool
  | none => false
  | some s => !(s == "")

structure AuthRequest where
  id : String
  publicKey : String
  supportsV2 : Bool
  response : Option String
  responseAccountId : Option String
  deriving Repr, DecidableEq

structure RequestResult where
  code : Nat
  state : Option String
  token : Option String
  response : Option String
  error : Option String
  deriving Repr, DecidableEq

structure StatusResult where
  code : Nat
  status : String
  supportsV2 : Bool
  deriving Repr, DecidableEq

structure ApproveResult where
  code : Nat
  success : Bool
  error : Option String
  deriving Repr, DecidableEq

/-- POST /v1/auth/request. -/
def authRequestHandler (store : List AuthRequest) (publicKey : List Nat)
    (supportsV2 : Option Bool) (newId : String)
    (createToken : String → Option String → String) :
    RequestResult × List AuthRequest :=
  if publicKey.length ≠ 32 then
    (⟨401, none, none, none, some "Invalid public key"⟩, store)
  else
    let publicKeyHex := hexEncode publicKey
    let found := store.find? (fun r => r.publicKey = publicKeyHex)
    let answer := found.getD ⟨newId, publicKeyHex, supportsV2.getD false, none, none⟩
    let store' := if found.isSome then store
      else store ++ [⟨newId, publicKeyHex, supportsV2.getD false, none, none⟩]
    if truthy answer.response && truthy answer.responseAccountId then
      (⟨200, some "authorized",
        some (createToken (answer.responseAccountId.getD "") (some answer.id)),
        answer.response, none⟩, store')
    else
      (⟨200, some "requested", none, none, none⟩, store')

/-- GET /v1/auth/request/status. -/
def authStatusHandler (store : List AuthRequest) (publicKey : List Nat) : StatusResult :=
  if publicKey.length ≠ 32 then ⟨200, "not_found", false⟩
  else
    match store.find? (fun r => r.publicKey = hexEncode publicKey) with
    | none => ⟨200, "not_found", false⟩
    | some authRequest =>
        if truthy authRequest.response && truthy authRequest.responseAccountId then
          ⟨200, "authorized", false⟩
        else ⟨200, "pending", authRequest.supportsV2⟩

/-- POST /v1/auth/response. -/
def authResponseHandler (store : List AuthRequest) (publicKey : List Nat)
    (response userId : String) : ApproveResult × List AuthRequest :=
  if publicKey.length ≠ 32 then (⟨401, false, some "Invalid public key"⟩, store)
  else
    let publicKeyHex := hexEncode publicKey
    match store.find? (fun r => r.publicKey = publicKeyHex) with
    | none => (⟨404, false, some "Request not found"⟩, store)
    | some authRequest =>
        if !truthy authRequest.response then
          (⟨200, true, none⟩, store.map (fun r =>
            if r.id = authRequest.id then
              { r with response := some response, responseAccountId := some userId }
            else r))
        else (⟨200, true, none⟩, store)

/-- POST /v1/auth/account/request (same state machine, account table;
the created record has no supportsV2 input and no session-scoped token). -/
def accountRequestHandler (store : List AuthRequest) (publicKey : List Nat)
    (newId : String) (createToken : String → Option String → String) :
    RequestResult × List AuthRequest :=
  if publicKey.length ≠ 32 then
    (⟨401, none, none, none, some "Invalid public key"⟩, store)
  else
    let publicKeyHex := hexEncode publicKey
    let found := store.find? (fun r => r.publicKey = publicKeyHex)
    let answer := found.getD ⟨newId, publicKeyHex, false, none, none⟩
    let store' := if found.isSome then store
      else store ++ [⟨newId, publicKeyHex, false, none, none⟩]
    if truthy answer.response && truthy answer.responseAccountId then
      (⟨200, some "authorized",
        some (createToken (answer.responseAccountId.getD "") none),
        answer.response, none⟩, store')
    else
      (⟨200, some "requested", none, none, none⟩, store')

/-- POST /v1/auth/account/response. -/
def accountResponseHandler (store : List AuthRequest) (publicKey : List Nat)
    (response userId : String) : ApproveResult × List AuthRequest :=
  if publicKey.length ≠ 32 then (⟨401, false, some "Invalid public key"⟩, store)
  else
    let publicKeyHex := hexEncode publicKey
    match store.find? (fun r => r.publicKey = publicKeyHex) with
    | none => (⟨404, false, some "Request not found"⟩, store)
    | some authRequest =>
        if !truthy authRequest.response then
          (⟨200, true, none⟩, store.map (fun r =>
            if r.id = authRequest.id then
              { r with response := some response, responseAccountId := some userId }
            else r))
        else (⟨200, true, none⟩, store)

/-!
Part 7: the NAS credential vault of the AD login route.  The cipher
`createCipheriv('aes-256-gcm', ...)` lives in node:crypto, outside the
repository.  Modelled from the spec: an authenticated stream cipher —
a deterministic keystream XORed into the plaintext plus a 16-byte
deterministic tag over `(key, nonce, ciphertext)`; the 12-byte random
nonce of `randomBytes(12)` is passed in as an argument.  The repository
code under verification is the blob layout `nonce ‖ tag ‖ ciphertext`
and the fixed split offsets 12 and 28 on unseal.
-/

def prfBlock (key iv : List Nat) (counter : Nat) : List Nat :=
  sha256 (key ++ iv ++ beBytes 8 counter)

/-- Modelled from the spec: the stream-cipher keystream, one byte per
index, independent of the plaintext. -/
def gcmKeystream (key iv : List Nat) (n : Nat) : List Nat :=
  (List.range n).map (fun i => (prfBlock key iv (i / 32)).getD (i % 32) 0)

/-- Modelled from the spec: the 16-byte authentication tag over key,
nonce and ciphertext. -/
def gcmTag (key iv ct : List Nat) : List Nat :=
  (sha256 (key ++ iv ++ ct ++ beBytes 8 ct.length)).take 16

def xorBytes (a b : List Nat) : List Nat := List.zipWith (fun x y => x ^^^ y) a b

def deriveNasCredKey (masterSecret username : String) : List Nat :=
  sha256 (utf8 ("nas-cred-key:" ++ masterSecret ++ ":" ++ username))

/-- `encryptNasPassword`: seal the password as `iv ‖ tag ‖ ciphertext`. -/
def encryptNasPassword (password key iv : List Nat) : List Nat :=
  let encrypted := xorBytes password (gcmKeystream key iv password.length)
  let tag := gcmTag key iv encrypted
  iv ++ tag ++ encrypted

/-- `decryptNasPassword`: split at offsets 12 and 28, verify the tag,
decrypt; `none` models the integrity exception of `decipher.final()`. -/
def decryptNasPassword (data key : List Nat) : Option (List Nat) :=
  let iv := data.take 12
  let tag := (data.drop 12).take 16
  let encrypted := data.drop 28
  if tag = gcmTag key iv encrypted then
    some (xorBytes encrypted (gcmKeystream key iv encrypted.length))
  else none

/-!
Part 8: POST /v1/auth/ad.  The LDAP outcome, the generated account id,
the token issuer, the nonce and a flag modelling a throw inside the
NAS-credential `try` block are passed as parameters.
-/

def adAccountId (masterSecret username : String) : String :=
  hexEncode (sha256 (utf8 ("ad:" ++ masterSecret ++ ":" ++ username)))

def adSecretOf (masterSecret username : String) : String :=
  base64url (sha256 (utf8 ("ad-secret:" ++ masterSecret ++ ":" ++ username)))

def upsertAccount (accounts : List (String × String)) (pubKey newId : String) :
    String × List (String × String) :=
  match accounts.find? (fun p => p.1 = pubKey) with
  | some p => (p.2, accounts)
  | none => (newId, accounts ++ [(pubKey, newId)])

def kvUpsert (kv : List ((String × String) × List Nat)) (k : String × String)
    (v : List Nat) : List ((String × String) × List Nat) :=
  match kv.find? (fun p => p.1 = k) with
  | some _ => kv.map (fun p => if p.1 = k then (k, v) else p)
  | none => kv ++ [(k, v)]

structure AdResult where
  code : Nat
  success : Bool
  token : Option String
  secret : Option String
  error : Option String
  deriving Repr, DecidableEq

/-- The /v1/auth/ad handler. -/
def adLoginHandler (masterSecret : String) (ldapOk storeFails : Bool) (newId : String)
    (createToken : String → String) (iv : List Nat) (accounts : List (String × String))
    (kv : List ((String × String) × List Nat)) (username password : String) :
    AdResult × List (String × String) × List ((String × String) × List Nat) :=
  if !ldapOk then
    (⟨401, false, none, none, some "Invalid credentials"⟩, accounts, kv)
  else
    let normalizedUsername := cleanUsername username
    let publicKeyHash := adAccountId masterSecret normalizedUsername
    let ua := upsertAccount accounts publicKeyHash newId
    let secret := adSecretOf masterSecret normalizedUsername
    let kv' :=
      if storeFails then kv
      else kvUpsert kv (ua.1, "nas-credentials")
        (encryptNasPassword (utf8 password)
          (deriveNasCredKey masterSecret normalizedUsername) iv)
    (⟨200, true, some (createToken ua.1), some secret, none⟩, ua.2, kv')

/-!
Part 9: claim theorems.
-/

theorem sha256_length (l : List Nat) : (sha256 l).length = 32 := by
  simp [sha256, beBytes_length]

/-- C10: the status endpoint reports the stored supportsV2 flag only
while the request is pending: whenever the reported status is
"authorized" or "not_found", the reply carries supportsV2 = false
regardless of the stored record. -/
theorem C10_supportsV2_only_while_pending (store : List AuthRequest) (publicKey : List Nat)
    (h : (authStatusHandler store publicKey).status = "authorized"
       ∨ (authStatusHandler store publicKey).status = "not_found") :
    (authStatusHandler store publicKey).supportsV2 = false := by
  unfold authStatusHandler at h ⊢
  by_cases hl : publicKey.length ≠ 32
  · rw [if_pos hl]
  · rw [if_neg hl] at h ⊢
    cases hf : store.find? (fun r => r.publicKey = hexEncode publicKey) with
    | none => simp [hf]
    | some r =>
        simp only [hf] at h ⊢
        by_cases ht : (truthy r.response && truthy r.responseAccountId) = true
        · rw [if_pos ht]
        · rw [if_neg ht] at h ⊢
          dsimp only at h
          rcases h with h | h <;> exact absurd h (by decide)

/-- Witness for C10 at a concrete store and key. -/
theorem C10_witness :
    (authStatusHandler [] [0, 1, 2]).supportsV2 = false :=
  C10_supportsV2_only_while_pending [] [0, 1, 2] (Or.inr (by decide))

set_option maxRecDepth 100000 in
/-- C3 counterexample: a request whose `response` and `responseAccountId`
are both already set (response stored as the empty string, which JS
truthiness treats as absent) is overwritten by a further approval call:
the call reports success but replaces both fields, so the fields are not
set only once. -/
theorem C3_counterexample :
    (authResponseHandler
        [⟨"id1", hexEncode (List.replicate 32 0), false, some "", some "A"⟩]
        (List.replicate 32 0) "r2" "B").1.success = true ∧
    (authResponseHandler
        [⟨"id1", hexEncode (List.replicate 32 0), false, some "", some "A"⟩]
        (List.replicate 32 0) "r2" "B").2
      = [⟨"id1", hexEncode (List.replicate 32 0), false, some "r2", some "B"⟩] ∧
    some "r2" ≠ some "" ∧ some "B" ≠ some "A" := by
  refine ⟨by decide, by decide, by decide, by decide⟩

/-- C3 (amended): for every pairing request, in either namespace, whose
`response` is set to a non-empty string and whose `responseAccountId` is
set, a further approval call returns success and leaves the store — and
hence both fields — unchanged, and the request-polling upsert never
modifies an existing record: the authorized state is terminal. -/
theorem C3_approval_idempotent_once_answered
    (store : List AuthRequest) (pk : List Nat) (resp uid : String)
    (r : AuthRequest) (rv a : String)
    (hlen : pk.length = 32)
    (hfind : store.find? (fun x => x.publicKey = hexEncode pk) = some r)
    (hresp : r.response = some rv) (hrv : rv ≠ "")
    (hacc : r.responseAccountId = some a) :
    authResponseHandler store pk resp uid = (⟨200, true, none⟩, store) ∧
    accountResponseHandler store pk resp uid = (⟨200, true, none⟩, store) ∧
    (∀ v nid tok, (authRequestHandler store pk v nid tok).2 = store) ∧
    (∀ nid tok, (accountRequestHandler store pk nid tok).2 = store) := by
  have hlen' : ¬(pk.length ≠ 32) := by omega
  have htr : truthy r.response = true := by
    rw [hresp]
    simp [truthy, hrv]
  refine ⟨?_, ?_, ?_, ?_⟩
  · unfold authResponseHandler
    rw [if_neg hlen']
    simp [hfind, htr]
  · unfold accountResponseHandler
    rw [if_neg hlen']
    simp [hfind, htr]
  · intro v nid tok
    unfold authRequestHandler
    rw [if_neg hlen']
    simp only [hfind, Option.isSome_some, if_true]
    split <;> rfl
  · intro nid tok
    unfold accountRequestHandler
    rw [if_neg hlen']
    simp only [hfind, Option.isSome_some, if_true]
    split <;> rfl

set_option maxRecDepth 100000 in
/-- Witness for C3 (amended) at a concrete answered request. -/
theorem C3_witness :
    authResponseHandler
        [⟨"id1", hexEncode (List.replicate 32 0), false, some "x", some "A"⟩]
        (List.replicate 32 0) "r2" "B"
      = (⟨200, true, none⟩,
         [⟨"id1", hexEncode (List.replicate 32 0), false, some "x", some "A"⟩]) :=
  (C3_approval_idempotent_once_answered
    [⟨"id1", hexEncode (List.replicate 32 0), false, some "x", some "A"⟩]
    (List.replicate 32 0) "r2" "B"
    ⟨"id1", hexEncode (List.replicate 32 0), false, some "x", some "A"⟩ "x" "A"
    (by decide) (by decide) (by decide) (by decide) (by decide)).1

/-- C4 counterexample: a malformed (31-byte) public key on the status
endpoint is rejected before any store lookup, but with HTTP 200 and
status "not_found", not with a 401 authentication error as the claim
states for every pairing endpoint. -/
theorem C4_counterexample :
    (authStatusHandler [] (List.replicate 31 0)).code = 200 ∧
    (authStatusHandler [] (List.replicate 31 0)).code ≠ 401 ∧
    (authStatusHandler [] (List.replicate 31 0)).status = "not_found" := by
  refine ⟨by decide, by decide, by decide⟩

/-- C4 (amended): for every public key whose decoded length is not the
expected 32 bytes, the four POST pairing endpoints (request and response,
terminal and account namespaces) reject with 401 before any store
access, and the GET status endpoint short-circuits to a 200
"not_found"/supportsV2=false reply before any store lookup; in every
case the store is left unchanged, so no record is created or modified. -/
theorem C4_malformed_key_rejected_before_store
    (store : List AuthRequest) (pk : List Nat) (v : Option Bool)
    (nid resp uid : String) (tok : String → Option String → String)
    (hlen : pk.length ≠ 32) :
    authRequestHandler store pk v nid tok
      = (⟨401, none, none, none, some "Invalid public key"⟩, store) ∧
    authResponseHandler store pk resp uid
      = (⟨401, false, some "Invalid public key"⟩, store) ∧
    accountRequestHandler store pk nid tok
      = (⟨401, none, none, none, some "Invalid public key"⟩, store) ∧
    accountResponseHandler store pk resp uid
      = (⟨401, false, some "Invalid public key"⟩, store) ∧
    authStatusHandler store pk = ⟨200, "not_found", false⟩ := by
  refine ⟨?_, ?_, ?_, ?_, ?_⟩ <;>
    simp [authRequestHandler, authResponseHandler, accountRequestHandler,
      accountResponseHandler, authStatusHandler, hlen]

/-- Witness for C4 (amended) at a concrete 31-byte key. -/
theorem C4_witness :
    authResponseHandler [] (List.replicate 31 0) "r" "A"
      = (⟨401, false, some "Invalid public key"⟩, []) :=
  (C4_malformed_key_rejected_before_store [] (List.replicate 31 0) none "n" "r" "A"
    (fun _ _ => "t") (by decide)).2.1

theorem xorBytes_cancel (p ks : List Nat) (h : p.length ≤ ks.length) :
    xorBytes (xorBytes p ks) ks = p := by
  induction p generalizing ks with
  | nil => simp [xorBytes]
  | cons a t ih =>
      cases ks with
      | nil => simp at h
      | cons b kt =>
          simp only [xorBytes, List.zipWith_cons_cons, List.cons.injEq]
          constructor
          · rw [Nat.xor_assoc, Nat.xor_self, Nat.xor_zero]
          · exact ih kt (by simpa using h)

theorem gcmTag_length (key iv ct : List Nat) : (gcmTag key iv ct).length = 16 := by
  simp [gcmTag, List.length_take, sha256_length]

/-- C5: unsealing a blob sealed under the same key returns the original
plaintext, and the sealed blob is laid out as the 12-byte nonce, then
the 16-byte tag, then a ciphertext of the plaintext's length. -/
theorem C5_seal_unseal_roundtrip (password key iv : List Nat) (hiv : iv.length = 12) :
    decryptNasPassword (encryptNasPassword password key iv) key = some password ∧
    encryptNasPassword password key iv
      = iv ++ gcmTag key iv (xorBytes password (gcmKeystream key iv password.length))
          ++ xorBytes password (gcmKeystream key iv password.length) ∧
    (xorBytes password (gcmKeystream key iv password.length)).length = password.length ∧
    (gcmTag key iv (xorBytes password (gcmKeystream key iv password.length))).length = 16 := by
  have hct : (xorBytes password (gcmKeystream key iv password.length)).length
      = password.length := by
    simp [xorBytes, gcmKeystream]
  have htag := gcmTag_length key iv (xorBytes password (gcmKeystream key iv password.length))
  refine ⟨?_, rfl, hct, htag⟩
  simp only [decryptNasPassword, encryptNasPassword]
  have h1 : (iv ++ gcmTag key iv (xorBytes password (gcmKeystream key iv password.length))
        ++ xorBytes password (gcmKeystream key iv password.length)).take 12 = iv := by
    rw [List.append_assoc]
    exact List.take_left' hiv
  have h2 : (iv ++ gcmTag key iv (xorBytes password (gcmKeystream key iv password.length))
        ++ xorBytes password (gcmKeystream key iv password.length)).drop 12
      = gcmTag key iv (xorBytes password (gcmKeystream key iv password.length))
        ++ xorBytes password (gcmKeystream key iv password.length) := by
    rw [List.append_assoc]
    exact List.drop_left' hiv
  have h3 : (gcmTag key iv (xorBytes password (gcmKeystream key iv password.length))
        ++ xorBytes password (gcmKeystream key iv password.length)).take 16
      = gcmTag key iv (xorBytes password (gcmKeystream key iv password.length)) :=
    List.take_left' htag
  have h4 : (iv ++ gcmTag key iv (xorBytes password (gcmKeystream key iv password.length))
        ++ xorBytes password (gcmKeystream key iv password.length)).drop 28
      = xorBytes password (gcmKeystream key iv password.length) :=
    List.drop_left' (by simp [hiv, htag])
  rw [h2, h3, h4, h1, if_pos rfl, hct]
  rw [xorBytes_cancel password (gcmKeystream key iv password.length) (by simp [gcmKeystream])]

/-- Witness for C5 at a concrete password, key and nonce. -/
theorem C5_witness :
    decryptNasPassword
        (encryptNasPassword [104, 105] [1, 2, 3] (List.replicate 12 7)) [1, 2, 3]
      = some [104, 105] :=
  (C5_seal_unseal_roundtrip [104, 105] [1, 2, 3] (List.replicate 12 7) (by decide)).1

theorem authenticateGo_spec (bind : String → String → String → Bool) (dn pw : String) :
    ∀ servers : List String,
    ((authenticateGo bind dn pw servers).1.success
        = servers.any (fun s => bind s dn pw)) ∧
    ((authenticateGo bind dn pw servers).1.success = false →
        (authenticateGo bind dn pw servers).1 = ⟨false, some "Invalid credentials"⟩ ∧
        (authenticateGo bind dn pw servers).2 = servers) ∧
    ((authenticateGo bind dn pw servers).2
        = servers.takeWhile (fun s => !bind s dn pw)
          ++ (servers.dropWhile (fun s => !bind s dn pw)).take 1) := by
  intro servers
  induction servers with
  | nil => simp [authenticateGo]
  | cons s rest ih =>
      by_cases hb : bind s dn pw
      · simp [authenticateGo, hb]
      · simp only [authenticateGo, hb, if_false, Bool.not_false, List.any_cons,
          Bool.false_or, List.takeWhile_cons, List.dropWhile_cons]
        refine ⟨ih.1, fun hs => ⟨(ih.2.1 hs).1, ?_⟩, ?_⟩
        · simp [(ih.2.1 hs).2]
        · simp [ih.2.2]

/-- C8: the directory authenticator tries the configured endpoints
strictly in configured order, binding as `netbios\` plus the stripped
username: the attempted-server trace is the failing front of the list
followed by the first succeeding endpoint, success is reported exactly
when some endpoint accepts the bind, and exhausting every endpoint
yields the generic failure reason "Invalid credentials". -/
theorem C8_ldap_failover_order (config : LdapConfig)
    (bind : String → String → String → Bool) (username password : String) :
    ((ldapAuthenticate config bind username password).1.success
      = config.servers.any (fun s =>
          bind s (config.netbios ++ "\\" ++ cleanUsername username) password)) ∧
    ((∀ s ∈ config.servers,
        bind s (config.netbios ++ "\\" ++ cleanUsername username) password = false) →
      (ldapAuthenticate config bind username password).1
        = ⟨false, some "Invalid credentials"⟩ ∧
      (ldapAuthenticate config bind username password).2 = config.servers) ∧
    ((ldapAuthenticate config bind username password).2
      = config.servers.takeWhile (fun s =>
          !bind s (config.netbios ++ "\\" ++ cleanUsername username) password)
        ++ (config.servers.dropWhile (fun s =>
          !bind s (config.netbios ++ "\\" ++ cleanUsername username) password)).take 1) := by
  have h := authenticateGo_spec bind (config.netbios ++ "\\" ++ cleanUsername username)
    password config.servers
  refine ⟨h.1, fun hall => h.2.1 ?_, h.2.2⟩
  rw [h.1]
  simp only [List.any_eq_false]
  intro s hs
  simp [hall s hs]

/-- Witness for C8: two servers, every bind failing. -/
theorem C8_witness :
    (ldapAuthenticate ⟨["s1", "s2"], "GS-AD", "dom", "dn"⟩
        (fun _ _ _ => false) "u" "p").1 = ⟨false, some "Invalid credentials"⟩ ∧
    (ldapAuthenticate ⟨["s1", "s2"], "GS-AD", "dom", "dn"⟩
        (fun _ _ _ => false) "u" "p").2 = ["s1", "s2"] :=
  (C8_ldap_failover_order ⟨["s1", "s2"], "GS-AD", "dom", "dn"⟩
    (fun _ _ _ => false) "u" "p").2.1 (by decide)

/-- C9: when directory authentication succeeds, a failure thrown during
the NAS-credential seal-and-store step (modelled by `storeFails = true`)
does not change the HTTP reply: the handler still returns 200 success
with the minted token and the derived secret, exactly as in the
no-failure run, and the credential store is left untouched. -/
theorem C9_store_failure_does_not_fail_login (masterSecret newId : String)
    (createToken : String → String) (iv : List Nat)
    (accounts : List (String × String)) (kv : List ((String × String) × List Nat))
    (username password : String) :
    (adLoginHandler masterSecret true true newId createToken iv accounts kv
        username password).1
      = (adLoginHandler masterSecret true false newId createToken iv accounts kv
        username password).1 ∧
    (adLoginHandler masterSecret true true newId createToken iv accounts kv
        username password).1.code = 200 ∧
    (adLoginHandler masterSecret true true newId createToken iv accounts kv
        username password).1.success = true ∧
    (adLoginHandler masterSecret true true newId createToken iv accounts kv
        username password).1.token
      = some (createToken
          (upsertAccount accounts (adAccountId masterSecret (cleanUsername username))
            newId).1) ∧
    (adLoginHandler masterSecret true true newId createToken iv accounts kv
        username password).1.secret
      = some (adSecretOf masterSecret (cleanUsername username)) ∧
    (adLoginHandler masterSecret true true newId createToken iv accounts kv
        username password).2.2 = kv :=
  ⟨rfl, rfl, rfl, rfl, rfl, rfl⟩

/-- Modelled from the amended spec: `accountId = hex(sha256("ad:" +
masterSecret + ":" + username))` for the normalized username. -/
def specAccountId (masterSecret username : String) : String :=
  hexEncode (sha256 (utf8 ("ad:" ++ masterSecret ++ ":" ++ username)))

/-- Modelled from the amended spec: `accountSecret =
base64url(sha256("ad-secret:" + masterSecret + ":" + username))`. -/
def specAccountSecret (masterSecret username : String) : String :=
  base64url (sha256 (utf8 ("ad-secret:" ++ masterSecret ++ ":" ++ username)))

set_option maxRecDepth 1000000 in
/-- C2 counterexample: the handler derives the account id with SHA-256
(32-byte digest), not with the spec's 64-byte hash primitive: at
masterSecret "s" and username "alice" the derived id differs from the
hex of the 64-byte digest of the spec's hash primitive (already in
length: 64 hex characters versus 128). -/
theorem C2_counterexample :
    adAccountId "s" "alice"
      ≠ hexEncode (sha512Spec (utf8 ("ad:" ++ "s" ++ ":" ++ "alice"))) ∧
    (sha256 (utf8 ("ad:" ++ "s" ++ ":" ++ "alice"))).length = 32 ∧
    (sha512Spec (utf8 ("ad:" ++ "s" ++ ":" ++ "alice"))).length = 64 := by
  refine ⟨by decide, by decide, by decide⟩

/-- C2 (amended): for every master secret and username, the identity the
handler stores and returns is `accountId = hex(sha256("ad:" +
masterSecret + ":" + normalizedUsername))` and `accountSecret =
base64url(sha256("ad-secret:" + masterSecret + ":" +
normalizedUsername))`, the digests being 32 bytes (SHA-256), not the
spec's 64-byte hash primitive. -/
theorem C2_identity_derivation (masterSecret username newId password : String)
    (createToken : String → String) (iv : List Nat)
    (kv : List ((String × String) × List Nat)) :
    (adLoginHandler masterSecret true false newId createToken iv [] kv
        username password).2.1
      = [(specAccountId masterSecret (cleanUsername username), newId)] ∧
    (adLoginHandler masterSecret true false newId createToken iv [] kv
        username password).1.secret
      = some (specAccountSecret masterSecret (cleanUsername username)) ∧
    (sha256 (utf8 ("ad:" ++ masterSecret ++ ":" ++ cleanUsername username))).length
      = 32 ∧
    (sha256 (utf8 ("ad-secret:" ++ masterSecret ++ ":" ++ cleanUsername username))).length
      = 32 := by
  refine ⟨?_, rfl, sha256_length _, sha256_length _⟩
  simp [adLoginHandler, upsertAccount, adAccountId, specAccountId]

set_option maxRecDepth 1000000 in
/-- C7: for every master secret (and all other handler inputs), the AD
login handler behaves identically on the prefixed username "GS-AD\alice"
and on the bare "alice": the domain prefix up to the backslash is
stripped before identity derivation, credential sealing and account
upsert. -/
theorem C7_prefix_stripping (masterSecret newId password : String)
    (storeFails : Bool) (createToken : String → String) (iv : List Nat)
    (accounts : List (String × String)) (kv : List ((String × String) × List Nat)) :
    adLoginHandler masterSecret true storeFails newId createToken iv accounts kv
        "GS-AD\\alice" password
      = adLoginHandler masterSecret true storeFails newId createToken iv accounts kv
        "alice" password := by
  simp only [adLoginHandler]
  rw [(by decide : cleanUsername "GS-AD\\alice" = "alice"),
      (by decide : cleanUsername "alice" = "alice")]

set_option maxRecDepth 1000000 in
set_option maxHeartbeats 8000000 in
/-- C1, refuted on the code: the pure-JS `sha512` does not return the
digest prescribed by the SHA-512 standard.  Already on the empty input
it yields 3dd31224... where FIPS 180-4 prescribes cf83e135....
The deviation is the signed `Int32Array` read feeding the carry
comparison of `add64` in the message-schedule loop: the same algorithm
with that single comparison taken on the unsigned value (`sha512N`) is
proved equal to the standard (`sha512Spec`) for every input in the
`Uint8Array` domain, and the corresponding HMAC equals the standard
HMAC-SHA512. -/
theorem C1_sha512_deviates_from_standard :
    sha512 [] = [0x3d, 0xd3, 0x12, 0x24, 0xf4, 0x8c, 0x1f, 0xca, 0x08, 0xc1, 0x3f, 0x4c,
      0xf1, 0xd1, 0x20, 0x22, 0xa0, 0x34, 0x84, 0xf8, 0x69, 0x29, 0x36, 0x6c, 0x38, 0x95,
      0xbe, 0x89, 0xcd, 0x40, 0xc3, 0x3d, 0xde, 0xa5, 0x64, 0xcc, 0x5d, 0xf7, 0xeb, 0x63,
      0x65, 0xd7, 0xd1, 0x9e, 0x98, 0xab, 0x03, 0xc4, 0x6e, 0x2b, 0x60, 0x95, 0xc7, 0xaa,
      0x8a, 0xf1, 0x04, 0x3e, 0xf9, 0x70, 0x38, 0x03, 0x48, 0x3f] ∧
    sha512Spec [] = [0xcf, 0x83, 0xe1, 0x35, 0x7e, 0xef, 0xb8, 0xbd, 0xf1, 0x54, 0x28,
      0x50, 0xd6, 0x6d, 0x80, 0x07, 0xd6, 0x20, 0xe4, 0x05, 0x0b, 0x57, 0x15, 0xdc, 0x83,
      0xf4, 0xa9, 0x21, 0xd3, 0x6c, 0xe9, 0xce, 0x47, 0xd0, 0xd1, 0x3c, 0x5d, 0x85, 0xf2,
      0xb0, 0xff, 0x83, 0x18, 0xd2, 0x87, 0x7e, 0xec, 0x2f, 0x63, 0xb9, 0x31, 0xbd, 0x47,
      0x41, 0x7a, 0x81, 0xa5, 0x38, 0x32, 0x7a, 0xf9, 0x27, 0xda, 0x3e] ∧
    sha512 [] ≠ sha512Spec [] ∧
    (∀ msg : List Nat, (∀ b ∈ msg, b < 256) → msg.length * 8 < 2 ^ 64 →
        sha512N msg = sha512Spec msg) ∧
    (∀ key data : List Nat, (∀ b ∈ key, b < 256) → (∀ b ∈ data, b < 256) →
        key.length * 8 < 2 ^ 64 → (128 + data.length) * 8 < 2 ^ 64 →
        hmac_sha512N key data = hmacSpec key data) := by
  have h1 : sha512 [] = [0x3d, 0xd3, 0x12, 0x24, 0xf4, 0x8c, 0x1f, 0xca, 0x08, 0xc1,
      0x3f, 0x4c, 0xf1, 0xd1, 0x20, 0x22, 0xa0, 0x34, 0x84, 0xf8, 0x69, 0x29, 0x36, 0x6c,
      0x38, 0x95, 0xbe, 0x89, 0xcd, 0x40, 0xc3, 0x3d, 0xde, 0xa5, 0x64, 0xcc, 0x5d, 0xf7,
      0xeb, 0x63, 0x65, 0xd7, 0xd1, 0x9e, 0x98, 0xab, 0x03, 0xc4, 0x6e, 0x2b, 0x60, 0x95,
      0xc7, 0xaa, 0x8a, 0xf1, 0x04, 0x3e, 0xf9, 0x70, 0x38, 0x03, 0x48, 0x3f] := by decide
  have h2 : sha512Spec [] = [0xcf, 0x83, 0xe1, 0x35, 0x7e, 0xef, 0xb8, 0xbd, 0xf1, 0x54,
      0x28, 0x50, 0xd6, 0x6d, 0x80, 0x07, 0xd6, 0x20, 0xe4, 0x05, 0x0b, 0x57, 0x15, 0xdc,
      0x83, 0xf4, 0xa9, 0x21, 0xd3, 0x6c, 0xe9, 0xce, 0x47, 0xd0, 0xd1, 0x3c, 0x5d, 0x85,
      0xf2, 0xb0, 0xff, 0x83, 0x18, 0xd2, 0x87, 0x7e, 0xec, 0x2f, 0x63, 0xb9, 0x31, 0xbd,
      0x47, 0x41, 0x7a, 0x81, 0xa5, 0x38, 0x32, 0x7a, 0xf9, 0x27, 0xda, 0x3e] := by decide
  refine ⟨h1, h2, ?_, sha512_eq_sha512Spec, hmac_eq_hmacSpec⟩
  rw [h1, h2]
  decide

set_option maxRecDepth 1000000 in
set_option maxHeartbeats 2000000 in
/-- Witness for C1 at concrete inputs. -/
theorem C1_witness :
    sha512N [0] = sha512Spec [0] ∧ hmac_sha512N [1] [2] = hmacSpec [1] [2] :=
  ⟨C1_sha512_deviates_from_standard.2.2.2.1 [0] (by decide) (by decide),
   C1_sha512_deviates_from_standard.2.2.2.2 [1] [2]
     (by decide) (by decide) (by decide) (by decide)⟩
